import Mathlib

/-!
Verification development for the gltf-to-wl-bin converter.

The definitions below are a shallow embedding of the project-generation core
found in the repository sources (the Node scene-graph class, the
legacyGenerateProject resource/id allocation pass, the parseTemplateProject
template scanner, and the curID seeding in main).  JavaScript numbers that
occur here are non-negative integers (array indices, resource ids), so they
are modelled as Nat; JavaScript values that can be either a number or a
string (the running maxID of parseTemplateProject) are modelled by JSVal.
-/

set_option maxHeartbeats 1000000
set_option synthInstance.maxSize 512

namespace GltfToWlBin

/-! ## JavaScript value model for the template scanner -/

/-- A JavaScript value that is either a number or a string.  The running
maxID accumulator of parseTemplateProject starts as the number 0 but can
become a string through the three-argument getMaxId calls. -/
inductive JSVal where
  | num (n : Nat)
  | str (s : String)
deriving DecidableEq, Repr

/-- Numeric value of a string of decimal digits. -/
def decimalValue (s : String) : Nat :=
  s.data.foldl (fun n c => n * 10 + (c.toNat - 48)) 0

/-- JavaScript Number(s) for the id-key strings that occur in manifests:
a non-empty all-digit string parses to its decimal value, anything else is
NaN (modelled as none). -/
def jsStringToNumber (s : String) : Option Nat :=
  if s.data ≠ [] ∧ s.data.all Char.isDigit then some (decimalValue s) else none

/-- JavaScript ToNumber on a JSVal. -/
def jsToNumber : JSVal → Option Nat
  | JSVal.num n => some n
  | JSVal.str s => jsStringToNumber s

/-- JavaScript comparison x <= v where x is a number and v is a number or a
string; a NaN on either side makes the comparison false. -/
def jsLeNum (x : Nat) (v : JSVal) : Bool :=
  match jsToNumber v with
  | some y => decide (x ≤ y)
  | none => false

/-- Source: getMaxId(newIDStr, maxID) in src/unnamed/part_002 lines 688-696.
Returns maxID when Number(newIDStr) is NaN or not greater than maxID,
otherwise returns the parsed number. -/
def getMaxId (newIDStr : String) (maxID : JSVal) : JSVal :=
  match jsStringToNumber newIDStr with
  | none => maxID
  | some idNum => if jsLeNum idNum maxID then maxID else JSVal.num idNum

/-- The keys (in enumeration order) of each id-keyed category of a prior
manifest document; a category that is absent from the document is none.
Only the keys matter for the maximum-id computation. -/
structure TemplateDoc where
  objects : Option (List String) := none
  meshes : Option (List String) := none
  textures : Option (List String) := none
  images : Option (List String) := none
  materials : Option (List String) := none
  shaders : Option (List String) := none
  animations : Option (List String) := none
  skins : Option (List String) := none
  pipelines : Option (List String) := none

/-- One category scan of parseTemplateProject, for the categories whose loop
body is the two-argument call maxID = getMaxId(id, maxID). -/
def foldMaxId (keys : Option (List String)) (m : JSVal) : JSVal :=
  match keys with
  | none => m
  | some ks => ks.foldl (fun acc k => getMaxId k acc) m

/-- One category scan of parseTemplateProject for the animations and skins
categories, whose loop body in the source is maxID = getMaxId(id, id, maxID):
getMaxId only has two parameters, so the third argument is dropped and the
running maximum is replaced by the key itself (as a string). -/
def foldMaxIdExtraArg (keys : Option (List String)) (m : JSVal) : JSVal :=
  match keys with
  | none => m
  | some ks => ks.foldl (fun _acc k => getMaxId k (JSVal.str k)) m

/-- Source: the maxID computation of parseTemplateProject in
src/unnamed/part_002 lines 704-786, scanning the categories in source
order: objects, meshes, textures, images, materials, shaders, animations,
skins, pipelines. -/
def parseTemplateMaxId (t : TemplateDoc) : JSVal :=
  let m := JSVal.num 0
  let m := foldMaxId t.objects m
  let m := foldMaxId t.meshes m
  let m := foldMaxId t.textures m
  let m := foldMaxId t.images m
  let m := foldMaxId t.materials m
  let m := foldMaxId t.shaders m
  let m := foldMaxIdExtraArg t.animations m
  let m := foldMaxIdExtraArg t.skins m
  let m := foldMaxId t.pipelines m
  m

/-- All category key lists of a template document, concatenated. -/
def allTemplateKeys (t : TemplateDoc) : List String :=
  t.objects.getD [] ++ t.meshes.getD [] ++ t.textures.getD [] ++
  t.images.getD [] ++ t.materials.getD [] ++ t.shaders.getD [] ++
  t.animations.getD [] ++ t.skins.getD [] ++ t.pipelines.getD []

/-- Modelled from the spec: the maximum numeric key across all id-keyed
categories, with non-numeric keys excluded (and 0 when there is none).
This is what the spec says parseTemplateProject computes. -/
def specTemplateMaxId (t : TemplateDoc) : Nat :=
  ((allTemplateKeys t).filterMap jsStringToNumber).foldr max 0

/-- A prior manifest whose objects category has key "12" and whose
animations category has key "5". -/
def templateBugInput : TemplateDoc :=
  { objects := some ["12"], animations := some ["5"] }

/-! ## Starting id of a new build (main, src/unnamed/part_002 line 1220) -/

/-- Source: let curID = reservedIDs + templateMinID + 1 in main
(src/unnamed/part_002 line 1220). -/
def startingId (reservedIDs templateMinID : Nat) : Nat :=
  reservedIDs + templateMinID + 1

/-! ## Input document (normalized glTF JSON, the fields the core reads) -/

/-- One entry of json.nodes: optional name, optional child index list,
optional skin index. -/
structure GltfNode where
  name : Option String := none
  children : Option (List Nat) := none
  skin : Option Nat := none

/-- One entry of json.skins: optional name and a joint node-index list. -/
structure GltfSkin where
  name : Option String := none
  joints : List Nat := []

/-- The normalized input document.  Absent top-level lists are none.
For images, materials, meshes and animations only the (optional, possibly
empty and hence falsy) name of each entry is read; for textures only the
source image index is read. -/
structure GltfDoc where
  nodes : Option (List GltfNode) := none
  images : Option (List (Option String)) := none
  textures : Option (List Nat) := none
  materials : Option (List (Option String)) := none
  meshes : Option (List (Option String)) := none
  skins : Option (List GltfSkin) := none
  animations : Option (List (Option String)) := none

/-! ## Output manifest model -/

/-- The link block common to every emitted entry. -/
structure Link where
  name : String
  file : String
deriving DecidableEq, Repr

/-- An images / textures / materials / animations entry. -/
structure Entry where
  link : Link
deriving DecidableEq, Repr

/-- A meshes entry: simplify and simplifyTarget are only attached when the
ratio is not the identity value 1. -/
structure MeshEntry where
  link : Link
  simplify : Bool
  simplifyTarget : Option Int
deriving DecidableEq, Repr

/-- A skins entry: link plus the joints array of stringified object ids. -/
structure SkinEntry where
  link : Link
  joints : List String
deriving DecidableEq, Repr

/-- Result of the Node path getter: the computed string, the thrown
internal-consistency Error('Node not present in parent'), the JavaScript
crash on a node whose parent was never set, or exhaustion of the recursion
fuel of the embedding (never reached on trees of depth below the fuel). -/
inductive PathResult where
  | ok (s : String)
  | errNotInParent
  | errNullParent
  | outOfFuel
deriving DecidableEq, Repr

/-- An objects entry, as produced by Node.toJson. -/
structure ObjEntry where
  linkName : PathResult
  file : String
  parent : Option String := none
  skin : Option String := none
  meshComponentSkin : Option String := none
deriving DecidableEq, Repr

/-- The output manifest: the id-keyed categories the generator fills.  Keys
are the allocated ids (emitted as decimal strings in the real JSON); the
shaders / pipelines passthrough and the settings block carry no allocated
ids and are not modelled. -/
structure Project where
  objects : List (Nat × ObjEntry) := []
  meshes : List (Nat × MeshEntry) := []
  textures : List (Nat × Entry) := []
  images : List (Nat × Entry) := []
  materials : List (Nat × Entry) := []
  animations : List (Nat × Entry) := []
  skins : List (Nat × SkinEntry) := []
deriving DecidableEq, Repr

/-! ## Resource allocation phases of legacyGenerateProject -/

/-- Assoc-list lookup keyed by Nat (models Map.get). -/
def lookupA {α : Type} (l : List (Nat × α)) (k : Nat) : Option α :=
  (l.find? (fun p => p.1 == k)).map Prod.snd

/-- The shared default-name pattern of the images, materials, meshes, skins
and animations loops: an absent or empty (JavaScript falsy) name is replaced
by catName_n and the category-local counter advances. -/
def resolveName (catName : String) (defaultNum : Nat) : Option String → String × Nat
  | some s =>
      if s = "" then (catName ++ "_" ++ toString defaultNum, defaultNum + 1)
      else (s, defaultNum)
  | none => (catName ++ "_" ++ toString defaultNum, defaultNum + 1)

/-- The images / materials / animations loops (src/unnamed/part_002 lines
118-137, 161-181, 310-332): one entry and one id per input element, with
default naming.  Arguments: names, current id, category-local counter. -/
def genNamedEntries (catName file : String) :
    List (Option String) → Nat → Nat → List (Nat × Entry) × Nat
  | [], id, _defaultNum => ([], id)
  | nm :: rest, id, defaultNum =>
    let (name, dn) := resolveName catName defaultNum nm
    let (out, idEnd) := genNamedEntries catName file rest (id + 1) dn
    ((id, { link := { name, file } }) :: out, idEnd)

/-- The meshes loop (lines 183-210): like genNamedEntries but with the
simplification flag when ratio is not 1. -/
def genMeshEntries (file : String) (ratio : Int) :
    List (Option String) → Nat → Nat → List (Nat × MeshEntry) × Nat
  | [], id, _defaultNum => ([], id)
  | nm :: rest, id, defaultNum =>
    let (name, dn) := resolveName "mesh" defaultNum nm
    let entry : MeshEntry :=
      { link := { name, file },
        simplify := ratio ≠ 1,
        simplifyTarget := if ratio ≠ 1 then some ratio else none }
    let (out, idEnd) := genMeshEntries file ratio rest (id + 1) dn
    ((id, entry) :: out, idEnd)

/-- The textures loop (lines 140-159): entries whose source image was
already seen allocate nothing, but texCount advances for every entry.
Arguments: sources, current id, texCount, seen sources (texSources). -/
def genTextures (file : String) :
    List Nat → Nat → Nat → List Nat → List (Nat × Entry) × Nat
  | [], id, _texCount, _seen => ([], id)
  | src :: rest, id, texCount, seen =>
    if src ∈ seen then genTextures file rest id (texCount + 1) seen
    else
      let entry : Entry := { link := { name := "texture_" ++ toString texCount, file } }
      let (out, idEnd) := genTextures file rest (id + 1) (texCount + 1) (src :: seen)
      ((id, entry) :: out, idEnd)

/-- Result of the skins loop: entries (joints still empty, they are pushed
during the scene-objects traversal), the skin-index-to-id map, the
joint-node-index-to-skin-id map, and the next free id. -/
structure SkinsPhase where
  entries : List (Nat × Link)
  skinsMap : List (Nat × Nat)
  jointIdxs : Nat → Option Nat
  idEnd : Nat

/-- jointIdxs.set(jointIdx, id) for every joint of one skin; later skins
overwrite earlier ones for a shared joint index. -/
def setJoints (f : Nat → Option Nat) (joints : List Nat) (id : Nat) : Nat → Option Nat :=
  joints.foldl (fun g j => fun x => if x = j then some id else g x) f

/-- The skins loop (lines 212-247).  Arguments: skins, current id,
category-local default-name counter, skinID counter, jointIdxs so far. -/
def genSkins (file : String) :
    List GltfSkin → Nat → Nat → Nat → (Nat → Option Nat) → SkinsPhase
  | [], id, _defaultNum, _skinID, jointIdxs =>
    { entries := [], skinsMap := [], jointIdxs, idEnd := id }
  | sk :: rest, id, defaultNum, skinID, jointIdxs =>
    let (name, dn) := resolveName "skin" defaultNum sk.name
    let ji := setJoints jointIdxs sk.joints id
    let p := genSkins file rest (id + 1) dn (skinID + 1) ji
    { entries := (id, { name, file }) :: p.entries,
      skinsMap := (skinID, id) :: p.skinsMap,
      jointIdxs := p.jointIdxs,
      idEnd := p.idEnd }

/-! ## Scene-graph build (the Node class and lines 249-308) -/

/-- The parent pointer of a Node: null until set, the virtual root, or
another node (by arena index). -/
inductive ParentRef where
  | null
  | root
  | node (i : Nat)
deriving DecidableEq, Repr

/-- The arena of Node records for one input asset, plus the virtual root's
child list and the pending orphan set.  JavaScript object fields become
index-addressed maps. -/
structure Arena where
  names : Nat → Option String := fun _ => none
  childMap : Nat → List Nat := fun _ => []
  parentMap : Nat → ParentRef := fun _ => ParentRef.null
  rootChildren : List Nat := []
  orphans : List Nat := []
  meshSkinOf : Nat → Option Nat := fun _ => none
  skinOf : Nat → Option Nat := fun _ => none

/-- nodesFlat[childIdx].setParent(node) plus orphans.delete(childIdx):
the child's parent is set, the child is pushed onto the parent's children
array, and the child index leaves the orphan set. -/
def attachChild (a : Arena) (parentIdx childIdx : Nat) : Arena :=
  { a with
    parentMap := fun x => if x = childIdx then ParentRef.node parentIdx else a.parentMap x,
    childMap := fun x => if x = parentIdx then a.childMap parentIdx ++ [childIdx] else a.childMap x,
    orphans := a.orphans.erase childIdx }

/-- The body of the first pass over json.nodes (lines 259-284): record the
name, attach the declared children, record the mesh-skin binding
(skinsMap.get) and the joint membership (jointIdxs.get). -/
def processNode (skinsMap : List (Nat × Nat)) (jointIdxs : Nat → Option Nat)
    (a : Arena) (idx : Nat) (node : GltfNode) : Arena :=
  let a := { a with names := fun x => if x = idx then node.name else a.names x }
  let a := (node.children.getD []).foldl (fun acc c => attachChild acc idx c) a
  { a with
    meshSkinOf := fun x =>
      if x = idx then node.skin.bind (fun s => lookupA skinsMap s) else a.meshSkinOf x,
    skinOf := fun x => if x = idx then jointIdxs idx else a.skinOf x }

/-- The first pass over json.nodes: N fresh Node records, the orphan set
initially holding every index in ascending order, then one processNode step
per input node. -/
def buildNodesPass (skinsMap : List (Nat × Nat)) (jointIdxs : Nat → Option Nat)
    (ns : List GltfNode) : Arena :=
  ns.enum.foldl (fun a p => processNode skinsMap jointIdxs a p.1 p.2)
    { orphans := List.range ns.length }

/-- Lexicographic comparison of two character sequences by code point, the
string comparison JavaScript Array.prototype.sort applies by default. -/
def charListLe : List Char → List Char → Bool
  | [], _ => true
  | _ :: _, [] => false
  | c :: cs, d :: ds =>
    if c.toNat < d.toNat then true
    else if d.toNat < c.toNat then false
    else charListLe cs ds

/-- The order JavaScript Array.prototype.sort applies by default: elements
are compared as strings, here the decimal forms of the indices. -/
def jsStrLess (x y : Nat) : Prop :=
  charListLe (toString x).data (toString y).data = true

instance : DecidableRel jsStrLess :=
  fun x y => inferInstanceAs (Decidable (_ = true))

/-- nodesFlat[orphanIdx].setParent(tree): parent becomes the virtual root
and the orphan is appended to the root's child list. -/
def attachOrphan (a : Arena) (idx : Nat) : Arena :=
  { a with
    parentMap := fun x => if x = idx then ParentRef.root else a.parentMap x,
    rootChildren := a.rootChildren ++ [idx] }

/-- Lines 286-291: Array.from(orphans) (insertion order, which is ascending
index order), default .sort() (string comparison; the orphan indices are
distinct, so any sorting algorithm produces the same list), then attach each
orphan to the virtual root in the sorted order. -/
def attachOrphans (a : Arena) : Arena :=
  (a.orphans.insertionSort jsStrLess).foldl attachOrphan a

/-- One iteration of the Node.reverse loop (lines 49-68) at pair index i:
first and second are the i-th and (length-1-i)-th root children; the
children of first are re-parented to second, then the children of second
are re-parented to first, then the two child arrays are swapped.  The root's
own child list is never modified. -/
def reverseStep (a : Arena) (i : Nat) : Arena :=
  let k := a.rootChildren.length
  let first := a.rootChildren.getD i 0
  let second := a.rootChildren.getD (k - i - 1) 0
  let firstChildren := a.childMap first
  let secondChildren := a.childMap second
  { a with
    parentMap := fun x =>
      if x ∈ secondChildren then ParentRef.node first
      else if x ∈ firstChildren then ParentRef.node second
      else a.parentMap x,
    childMap := fun x =>
      if x = first then secondChildren
      else if x = second then firstChildren
      else a.childMap x }

/-- Node.reverse applied to the virtual root (tree.reverse() at line 295):
the loop runs for i = 0 .. floor(k/2) - 1. -/
def Arena.reverse (a : Arena) : Arena :=
  (List.range (a.rootChildren.length / 2)).foldl reverseStep a

/-- Node.dfs (lines 70-75), visit order only: each child is visited, then
its subtree, recursively.  The fuel argument bounds the recursion depth of
the embedding; any fuel above the tree depth yields the code's traversal. -/
def dfsOrder (childMap : Nat → List Nat) : Nat → List Nat → List Nat
  | 0, _ => []
  | fuel + 1, is => is.flatMap (fun i => i :: dfsOrder childMap fuel (childMap i))

/-- The fully built and transformed arena for one input node list. -/
def builtArena (skinsMap : List (Nat × Nat)) (jointIdxs : Nat → Option Nat)
    (ns : List GltfNode) : Arena :=
  (attachOrphans (buildNodesPass skinsMap jointIdxs ns)).reverse

/-- The node visit order of the tree.dfs pass, with fuel one above the node
count (the depth of an N-node forest is at most N). -/
def visitOrder (a : Arena) (n : Nat) : List Nat :=
  dfsOrder a.childMap (n + 1) a.rootChildren

/-! ## The Node path getter and Node.toJson -/

/-- Index of the first occurrence of x (Array.prototype.indexOf, with none
for the -1 not-found result). -/
def idxOf? (x : Nat) : List Nat → Option Nat
  | [] => none
  | y :: ys => if y = x then some 0 else (idxOf? x ys).map (· + 1)

/-- The Node path getter (lines 29-47), as a pure recursion over the parent
chain (the source memoizes the result; every memoized value was first
computed after all ancestors had their ids assigned, so recomputation yields
the same string).  idOf gives the ids assigned so far; a parent with a null
id (the virtual root, or a not-yet-visited node) stops the recursion. -/
def pathOf (a : Arena) (idOf : Nat → Option Nat) : Nat → Nat → PathResult
  | 0, _ => PathResult.outOfFuel
  | fuel + 1, i =>
    match a.parentMap i with
    | ParentRef.null => PathResult.errNullParent
    | ParentRef.root =>
      match a.names i with
      | some nm => PathResult.ok nm
      | none =>
        match idxOf? i a.rootChildren with
        | some k => PathResult.ok ("object_" ++ toString k)
        | none => PathResult.errNotInParent
    | ParentRef.node p =>
      let nm? : Option String :=
        match a.names i with
        | some nm => some nm
        | none => (idxOf? i (a.childMap p)).map (fun k => "object_" ++ toString k)
      match nm? with
      | none => PathResult.errNotInParent
      | some nm =>
        match idOf p with
        | none => PathResult.ok nm
        | some _ =>
          match pathOf a idOf fuel p with
          | PathResult.ok pp => PathResult.ok (nm ++ "<" ++ pp)
          | e => e

/-- Node.toJson (lines 77-106): link with the path as name, the parent id
when the parent has one, the skin id for joint nodes, and a mesh component
with the mesh-skin binding when present. -/
def toJsonObj (a : Arena) (idOf : Nat → Option Nat) (fuel : Nat) (file : String)
    (i : Nat) : ObjEntry :=
  { linkName := pathOf a idOf fuel i,
    file := file,
    parent := match a.parentMap i with
      | ParentRef.node p => (idOf p).map toString
      | _ => none,
    skin := (a.skinOf i).map toString,
    meshComponentSkin := (a.meshSkinOf i).map toString }

/-! ## The scene-objects emission (lines 297-307) -/

/-- skinsJoints.get(s).push(v). -/
def updateJoints (l : List (Nat × List String)) (s : Nat) (v : String) :
    List (Nat × List String) :=
  l.map (fun p => if p.1 = s then (p.1, p.2 ++ [v]) else p)

/-- State of the tree.dfs emission callback: objects so far, the joints
arrays (keyed by skin id), the ids assigned so far, and the id counter. -/
structure EmitState where
  objects : List (Nat × ObjEntry) := []
  joints : List (Nat × List String) := []
  idOf : Nat → Option Nat := fun _ => none
  id : Nat := 0

/-- The dfs callback body: assign the next id, push the stringified id onto
the node's skin's joints array when the node is a joint, then emit the
toJson entry. -/
def emitNode (a : Arena) (file : String) (fuel : Nat) (st : EmitState) (n : Nat) :
    EmitState :=
  let idOf := fun x => if x = n then some st.id else st.idOf x
  let joints := match a.skinOf n with
    | some s => updateJoints st.joints s (toString st.id)
    | none => st.joints
  { objects := st.objects ++ [(st.id, toJsonObj a idOf fuel file n)],
    joints, idOf, id := st.id + 1 }

/-- The whole scene-objects phase: absent node list means no tree and no
emission; otherwise build, attach orphans, reverse, traverse and emit. -/
def genSceneObjects (skinsMap : List (Nat × Nat)) (jointIdxs : Nat → Option Nat)
    (initJoints : List (Nat × List String)) (file : String) :
    Option (List GltfNode) → Nat → List (Nat × ObjEntry) × List (Nat × List String) × Nat
  | none, id => ([], initJoints, id)
  | some ns, id =>
    let a := builtArena skinsMap jointIdxs ns
    let fuel := ns.length + 1
    let st := (visitOrder a ns.length).foldl (emitNode a file fuel)
      { joints := initJoints, idOf := fun _ => none, id := id }
    (st.objects, st.joints, st.id)

/-! ## legacyGenerateProject (lines 109-337), the category phases in source
order: images, textures, materials, meshes, skins, scene objects,
animations. -/

/-- The empty joints array created for every allocated skin id. -/
def initJointsOf (entries : List (Nat × Link)) : List (Nat × List String) :=
  entries.map (fun p => (p.1, []))

/-- The guarded images block (if 'images' in json): absent list generates
nothing. -/
def stageImages (doc : GltfDoc) (file : String) (id : Nat) :
    List (Nat × Entry) × Nat :=
  match doc.images with
  | none => ([], id)
  | some l => genNamedEntries "image" file l id 0

/-- The guarded textures block. -/
def stageTextures (doc : GltfDoc) (file : String) (id : Nat) :
    List (Nat × Entry) × Nat :=
  match doc.textures with
  | none => ([], id)
  | some l => genTextures file l id 0 []

/-- The guarded materials block. -/
def stageMaterials (doc : GltfDoc) (file : String) (id : Nat) :
    List (Nat × Entry) × Nat :=
  match doc.materials with
  | none => ([], id)
  | some l => genNamedEntries "material" file l id 0

/-- The guarded meshes block. -/
def stageMeshes (doc : GltfDoc) (file : String) (ratio : Int) (id : Nat) :
    List (Nat × MeshEntry) × Nat :=
  match doc.meshes with
  | none => ([], id)
  | some l => genMeshEntries file ratio l id 0

/-- The guarded skins block. -/
def stageSkins (doc : GltfDoc) (file : String) (id : Nat) : SkinsPhase :=
  match doc.skins with
  | none => { entries := [], skinsMap := [], jointIdxs := fun _ => none, idEnd := id }
  | some l => genSkins file l id 0 0 (fun _ => none)

/-- The guarded animations block. -/
def stageAnimations (doc : GltfDoc) (file : String) (id : Nat) :
    List (Nat × Entry) × Nat :=
  match doc.animations with
  | none => ([], id)
  | some l => genNamedEntries "animation" file l id 0

/-- The project-generation core of legacyGenerateProject: fills the id-keyed
categories starting from the id counter curID and returns the final counter,
processing the category blocks in source order (images, textures, materials,
meshes, skins, scene objects, animations).  Carried-over template categories
(generateBaseProject) live outside the id-keyed ranges modelled here and are
independent of this pass. -/
def legacyGenerateProject (doc : GltfDoc) (file : String) (ratio : Int)
    (curID : Nat) : Project × Nat :=
  let id := curID
  let (imagesL, id) := stageImages doc file id
  let (texturesL, id) := stageTextures doc file id
  let (materialsL, id) := stageMaterials doc file id
  let (meshesL, id) := stageMeshes doc file ratio id
  let sp := stageSkins doc file id
  let id := sp.idEnd
  let (objectsL, jointsL, id) :=
    genSceneObjects sp.skinsMap sp.jointIdxs (initJointsOf sp.entries) file doc.nodes id
  let (animationsL, id) := stageAnimations doc file id
  ({ objects := objectsL,
     meshes := meshesL,
     textures := texturesL,
     images := imagesL,
     materials := materialsL,
     animations := animationsL,
     skins := sp.entries.map (fun p => (p.1, { link := p.2, joints := (lookupA jointsL p.1).getD [] })) },
   id)

/-! ## Derived descriptions of the build (used in theorem statements) -/

/-- The children list declared by the i-th input node (empty when the node
is out of range or declares none). -/
def childrenDecl (ns : List GltfNode) (i : Nat) : List Nat :=
  ((ns.get? i).bind GltfNode.children).getD []

/-- Every child index declared anywhere in the node list, in declaration
order. -/
def allChildren (ns : List GltfNode) : List Nat :=
  ns.flatMap (fun nd => nd.children.getD [])

/-- The orphan indices: the node indices not declared as anyone's child,
in ascending order. -/
def orphansOf (ns : List GltfNode) : List Nat :=
  (List.range ns.length).filter (fun x => decide (x ∉ allChildren ns))

/-- The mirror of x in the root-children list rc: the element sitting at
the opposite position (x itself when x is not a root child). -/
def mirrorIdx (rc : List Nat) (x : Nat) : Nat :=
  match idxOf? x rc with
  | some j => rc.getD (rc.length - 1 - j) 0
  | none => x

/-! ## Concrete inputs for the counterexamples and witnesses -/

/-- Eleven nodes, none declared as a child: all eleven are orphans. -/
def nodesElevenOrphans : List GltfNode := List.replicate 11 {}

/-- Four named root nodes A B C D, each owning one named leaf child. -/
def nodesFourRoots : List GltfNode :=
  [{ name := some "A", children := some [4] },
   { name := some "B", children := some [5] },
   { name := some "C", children := some [6] },
   { name := some "D", children := some [7] },
   { name := some "a" }, { name := some "b" },
   { name := some "c" }, { name := some "d" }]

/-- The pre-transform tree of nodesFourRoots (built and orphan-attached,
before Node.reverse runs). -/
def preArenaW : Arena :=
  attachOrphans (buildNodesPass [] (fun _ => none) nodesFourRoots)

/-! ## Allocation accounting (used to state the fixed cross-category
order) -/

/-- The keys of an id-keyed output mapping, in emission order. -/
def keysOf {α : Type} (l : List (Nat × α)) : List Nat := l.map Prod.fst

/-- Ids consumed by the images category. -/
def imagesCount (doc : GltfDoc) : Nat := (doc.images.getD []).length

/-- Ids consumed by the textures category: one per distinct source image. -/
def texturesCount (doc : GltfDoc) : Nat := (doc.textures.getD []).toFinset.card

/-- Ids consumed by the materials category. -/
def materialsCount (doc : GltfDoc) : Nat := (doc.materials.getD []).length

/-- Ids consumed by the meshes category. -/
def meshesCount (doc : GltfDoc) : Nat := (doc.meshes.getD []).length

/-- Ids consumed by the skins category. -/
def skinsCount (doc : GltfDoc) : Nat := (doc.skins.getD []).length

/-- Ids consumed by the animations category. -/
def animationsCount (doc : GltfDoc) : Nat := (doc.animations.getD []).length

/-- Number of nodes the scene traversal visits (one id each). -/
def sceneCount (sm : List (Nat × Nat)) (ji : Nat → Option Nat) :
    Option (List GltfNode) → Nat
  | none => 0
  | some ns => (visitOrder (builtArena sm ji ns) ns.length).length

/-- Ids consumed by the scene-objects category, for the skins phase run at
id counter skinStart. -/
def objectsCount (doc : GltfDoc) (file : String) (skinStart : Nat) : Nat :=
  sceneCount (stageSkins doc file skinStart).skinsMap
    (stageSkins doc file skinStart).jointIdxs doc.nodes

/-- The id counter after the images, textures, materials and meshes
categories have allocated. -/
def idAfterMeshes (doc : GltfDoc) (file : String) (ratio : Int) (id0 : Nat) : Nat :=
  (stageMeshes doc file ratio
    ((stageMaterials doc file
      ((stageTextures doc file
        ((stageImages doc file id0).2)).2)).2)).2

/-- The skins phase of a whole run started at id0. -/
def skinsPhaseOf (doc : GltfDoc) (file : String) (ratio : Int) (id0 : Nat) :
    SkinsPhase :=
  stageSkins doc file (idAfterMeshes doc file ratio id0)

/-- The scene-objects phase of a whole run started at id0. -/
def sceneResultOf (doc : GltfDoc) (file : String) (ratio : Int) (id0 : Nat) :
    List (Nat × ObjEntry) × List (Nat × List String) × Nat :=
  genSceneObjects (skinsPhaseOf doc file ratio id0).skinsMap
    (skinsPhaseOf doc file ratio id0).jointIdxs
    (initJointsOf (skinsPhaseOf doc file ratio id0).entries)
    file doc.nodes (skinsPhaseOf doc file ratio id0).idEnd

/-- The stringified ids pushed for skin s while the visit list is emitted
with sequential ids from id: exactly the visited nodes whose recorded skin
is s, in visitation order. -/
def dfsJointIds (a : Arena) : List Nat → Nat → Nat → List String
  | [], _id, _s => []
  | n :: rest, id, s =>
    if a.skinOf n = some s then toString id :: dfsJointIds a rest (id + 1) s
    else dfsJointIds a rest (id + 1) s

/-- The joints list the scene phase produces for skin s: empty without a
node list, otherwise the DFS-ordered joint ids of the transformed tree. -/
def sceneJoints (sm : List (Nat × Nat)) (ji : Nat → Option Nat) (s id : Nat) :
    Option (List GltfNode) → List String
  | none => []
  | some ns =>
    dfsJointIds (builtArena sm ji ns) (visitOrder (builtArena sm ji ns) ns.length) id s

/-- A document whose skin S declares joints X (index 1) then Y (index 2),
while the parent R lists its children as [2, 1], so the traversal visits Y
before X. -/
def docSkinW : GltfDoc :=
  { nodes := some [{ name := some "R", children := some [2, 1] },
      { name := some "X" }, { name := some "Y" }],
    skins := some [{ name := some "S", joints := [1, 2] }] }

/-- The skin entry emitted for docSkinW at starting id 10: Y (visited
first, id 12) precedes X (id 13) although X was declared first. -/
def skinEntryW : SkinEntry :=
  { link := { name := "S", file := "m.gltf" }, joints := ["12", "13"] }

/-! ## The path recurrence of the spec (for comparison with pathOf) -/

/-- localName(n) as the spec words it: the explicit name if set, else
object_k where k is the index of n within its parent's child list (the
virtual root's child list when the parent is the virtual root). -/
def localName (a : Arena) (i : Nat) : String :=
  match a.names i with
  | some nm => nm
  | none =>
    let siblings :=
      match a.parentMap i with
      | ParentRef.root => a.rootChildren
      | ParentRef.node p => a.childMap p
      | ParentRef.null => []
    "object_" ++ toString ((idxOf? i siblings).getD 0)

/-- The path recurrence as the spec words it: localName(n) when the parent
is the virtual root, localName(n) + "<" + path(parent(n)) otherwise.  The
fuel mirrors pathOf's recursion bound. -/
def pathSpec (a : Arena) : Nat → Nat → String
  | 0, _ => ""
  | fuel + 1, i =>
    match a.parentMap i with
    | ParentRef.node p => localName a i ++ "<" ++ pathSpec a fuel p
    | _ => localName a i

/-- The placement invariant for one node j of an arena, as a Boolean: j's
parent is never null; a root child appears in the root child list; a node
with a real parent p appears in p's child list, p is in range, p's id is
assigned, and p sits strictly lower in the height measure h. -/
def parentOkB (a : Arena) (idOf : Nat → Option Nat) (h : Nat → Nat) (n j : Nat) :
    Bool :=
  match a.parentMap j with
  | ParentRef.null => false
  | ParentRef.root => decide (j ∈ a.rootChildren)
  | ParentRef.node p =>
    decide (p < n) && decide (j ∈ a.childMap p) && (idOf p).isSome &&
      decide (h p < h j)

/-- A two-node placed tree: root child 0 (named "A") with unnamed child 1. -/
def pathArenaW : Arena :=
  { names := fun i => if i = 0 then some "A" else none,
    childMap := fun i => if i = 0 then [1] else [],
    parentMap := fun i =>
      if i = 0 then ParentRef.root
      else if i = 1 then ParentRef.node 0 else ParentRef.null,
    rootChildren := [0] }

/-- The end-to-end example node list of the spec: A with child B, plus
orphan C. -/
def nodesC8W : List GltfNode :=
  [{ name := some "A", children := some [1] },
   { name := some "B" }, { name := some "C" }]

/-- The end-to-end example document. -/
def docC8W : GltfDoc := { nodes := some nodesC8W }

/-! ## Claim theorems C3 and C4 -/

/-- C3: the spec says parseTemplateProject computes the maximum numeric key
across all categories, also when animations or skins hold the maximum.  The
code does not: because the animations and skins loops call getMaxId with an
extra argument, the running maximum is discarded there.  On a template with
objects key "12" and animations key "5" the code produces the string "5"
(numerically 5), while the spec-side maximum is 12. -/
theorem parseTemplateMaxId_bug_eval :
    parseTemplateMaxId templateBugInput = JSVal.str "5" ∧
    specTemplateMaxId templateBugInput = 12 ∧
    parseTemplateMaxId templateBugInput ≠ JSVal.num (specTemplateMaxId templateBugInput) := by
  decide

/-- C4 counterexample: the spec says the starting id is
max(reservedIds, maxId) + 1, but with reservedIds = 1 and maxId = 1 the code
computes 1 + 1 + 1 = 3, not max 1 1 + 1 = 2. -/
theorem startingId_counterexample :
    startingId 1 1 ≠ max 1 1 + 1 := by decide

/-- C4 (amended): the starting id handed to the first allocation is
reservedIds + maxId + 1; this agrees with the spec's max(reservedIds, maxId) + 1
exactly when reservedIds or maxId is zero. -/
theorem startingId_amended (r m : Nat) :
    startingId r m = r + m + 1 ∧
    (startingId r m = max r m + 1 ↔ min r m = 0) := by
  refine ⟨rfl, ?_⟩
  unfold startingId
  omega

/-! ## Order facts for the default sort comparator -/

theorem charListLe_total (a b : List Char) :
    charListLe a b = true ∨ charListLe b a = true := by
  induction a generalizing b with
  | nil => left; rfl
  | cons c cs ih =>
    cases b with
    | nil => right; rfl
    | cons d ds =>
      by_cases h1 : c.toNat < d.toNat
      · left; simp [charListLe, h1]
      · by_cases h2 : d.toNat < c.toNat
        · right; simp [charListLe, h2]
        · rcases ih ds with h | h
          · left; simp [charListLe, h1, h2, h]
          · right; simp [charListLe, h1, h2, h]

theorem charListLe_trans {a b c : List Char}
    (hab : charListLe a b = true) (hbc : charListLe b c = true) :
    charListLe a c = true := by
  induction a generalizing b c with
  | nil => rfl
  | cons e es ih =>
    cases b with
    | nil => simp [charListLe] at hab
    | cons f fs =>
      cases c with
      | nil => simp [charListLe] at hbc
      | cons g gs =>
        simp only [charListLe] at hab hbc ⊢
        by_cases h1 : e.toNat < f.toNat
        · by_cases h2 : f.toNat < g.toNat
          · simp [show e.toNat < g.toNat by omega]
          · by_cases h3 : g.toNat < f.toNat
            · simp [h2, h3] at hbc
            · simp [show e.toNat < g.toNat by omega]
        · by_cases h4 : f.toNat < e.toNat
          · simp [h1, h4] at hab
          · simp only [if_neg h1, if_neg h4] at hab
            by_cases h2 : f.toNat < g.toNat
            · simp [show e.toNat < g.toNat by omega]
            · by_cases h3 : g.toNat < f.toNat
              · simp [h2, h3] at hbc
              · simp only [if_neg h2, if_neg h3] at hbc
                have h5 : ¬ e.toNat < g.toNat := by omega
                have h6 : ¬ g.toNat < e.toNat := by omega
                simp only [if_neg h5, if_neg h6]
                exact ih hab hbc

instance : IsTotal Nat jsStrLess :=
  ⟨fun x y => charListLe_total (toString x).data (toString y).data⟩

instance : IsTrans Nat jsStrLess :=
  ⟨fun _ _ _ hxy hyz => charListLe_trans hxy hyz⟩

/-! ## Component lemmas for the orphan-attachment fold -/

theorem foldl_attachOrphan_rootChildren (l : List Nat) (a : Arena) :
    (l.foldl attachOrphan a).rootChildren = a.rootChildren ++ l := by
  induction l generalizing a with
  | nil => simp
  | cons x xs ih => simp [ih, attachOrphan]

theorem foldl_attachOrphan_childMap (l : List Nat) (a : Arena) (x : Nat) :
    (l.foldl attachOrphan a).childMap x = a.childMap x := by
  induction l generalizing a with
  | nil => rfl
  | cons y ys ih => simp [ih, attachOrphan]

theorem foldl_attachOrphan_parentMap (l : List Nat) (a : Arena) (x : Nat) :
    (l.foldl attachOrphan a).parentMap x =
      if x ∈ l then ParentRef.root else a.parentMap x := by
  induction l generalizing a with
  | nil => simp
  | cons y ys ih =>
    simp only [List.foldl_cons, ih, attachOrphan, List.mem_cons]
    by_cases hy : x ∈ ys
    · simp [hy]
    · by_cases hx : x = y <;> simp [hx, hy]

theorem foldl_attachOrphan_skinOf (l : List Nat) (a : Arena) (x : Nat) :
    (l.foldl attachOrphan a).skinOf x = a.skinOf x := by
  induction l generalizing a with
  | nil => rfl
  | cons y ys ih => simp [ih, attachOrphan]

/-! ## Component lemmas for the child-attachment fold of one node -/

theorem foldl_attachChild_childMap (k : Nat) (cs : List Nat) (a : Arena) (x : Nat) :
    (cs.foldl (fun acc c => attachChild acc k c) a).childMap x =
      if x = k then a.childMap x ++ cs else a.childMap x := by
  induction cs generalizing a with
  | nil => simp
  | cons c cs ih =>
    rw [List.foldl_cons, ih]
    by_cases hx : x = k
    · subst hx
      simp [attachChild]
    · simp [attachChild, hx]

theorem foldl_attachChild_orphans (k : Nat) (cs : List Nat) (a : Arena) :
    (cs.foldl (fun acc c => attachChild acc k c) a).orphans =
      cs.foldl (fun o c => o.erase c) a.orphans := by
  induction cs generalizing a with
  | nil => rfl
  | cons c cs ih =>
    rw [List.foldl_cons, ih]
    rfl

theorem foldl_attachChild_rootChildren (k : Nat) (cs : List Nat) (a : Arena) :
    (cs.foldl (fun acc c => attachChild acc k c) a).rootChildren = a.rootChildren := by
  induction cs generalizing a with
  | nil => rfl
  | cons c cs ih =>
    rw [List.foldl_cons, ih]
    rfl

theorem foldl_attachChild_skinOf (k : Nat) (cs : List Nat) (a : Arena) (x : Nat) :
    (cs.foldl (fun acc c => attachChild acc k c) a).skinOf x = a.skinOf x := by
  induction cs generalizing a with
  | nil => rfl
  | cons c cs ih =>
    rw [List.foldl_cons, ih]
    rfl

/-! ## Component lemmas for processNode and the first pass -/

theorem processNode_childMap (sm : List (Nat × Nat)) (ji : Nat → Option Nat)
    (a : Arena) (idx : Nat) (nd : GltfNode) (x : Nat) :
    (processNode sm ji a idx nd).childMap x =
      if x = idx then a.childMap x ++ nd.children.getD [] else a.childMap x := by
  unfold processNode
  simp [foldl_attachChild_childMap]

theorem processNode_orphans (sm : List (Nat × Nat)) (ji : Nat → Option Nat)
    (a : Arena) (idx : Nat) (nd : GltfNode) :
    (processNode sm ji a idx nd).orphans =
      (nd.children.getD []).foldl (fun o c => o.erase c) a.orphans := by
  unfold processNode
  simp [foldl_attachChild_orphans]

theorem processNode_rootChildren (sm : List (Nat × Nat)) (ji : Nat → Option Nat)
    (a : Arena) (idx : Nat) (nd : GltfNode) :
    (processNode sm ji a idx nd).rootChildren = a.rootChildren := by
  unfold processNode
  simp [foldl_attachChild_rootChildren]

theorem processNode_skinOf (sm : List (Nat × Nat)) (ji : Nat → Option Nat)
    (a : Arena) (idx : Nat) (nd : GltfNode) (x : Nat) :
    (processNode sm ji a idx nd).skinOf x =
      if x = idx then ji idx else a.skinOf x := by
  unfold processNode
  simp [foldl_attachChild_skinOf]

theorem buildFold_childMap (sm : List (Nat × Nat)) (ji : Nat → Option Nat)
    (ns : List GltfNode) (k : Nat) (a : Arena) (x : Nat) :
    ((List.enumFrom k ns).foldl (fun s p => processNode sm ji s p.1 p.2) a).childMap x =
      if k ≤ x then a.childMap x ++ childrenDecl ns (x - k) else a.childMap x := by
  induction ns generalizing k a with
  | nil =>
    simp only [List.enumFrom, List.foldl_nil]
    have hc : childrenDecl [] (x - k) = [] := by simp [childrenDecl]
    by_cases h : k ≤ x
    · rw [if_pos h, hc, List.append_nil]
    · rw [if_neg h]
  | cons nd rest ih =>
    simp only [List.enumFrom, List.foldl_cons]
    rw [ih, processNode_childMap]
    rcases Nat.lt_trichotomy x k with h | h | h
    · rw [if_neg (by omega : ¬ k + 1 ≤ x), if_neg (by omega : x ≠ k),
        if_neg (by omega : ¬ k ≤ x)]
    · subst h
      rw [if_neg (by omega : ¬ x + 1 ≤ x), if_pos rfl, if_pos (by omega : x ≤ x)]
      have hc : childrenDecl (nd :: rest) (x - x) = nd.children.getD [] := by
        simp [childrenDecl, Nat.sub_self]
      rw [hc]
    · rw [if_pos (by omega : k + 1 ≤ x), if_neg (by omega : x ≠ k),
        if_pos (by omega : k ≤ x)]
      have h4 : x - k = (x - (k + 1)) + 1 := by omega
      have hc : childrenDecl (nd :: rest) (x - k) = childrenDecl rest (x - (k + 1)) := by
        rw [h4]; simp [childrenDecl]
      rw [hc]

theorem buildFold_orphans (sm : List (Nat × Nat)) (ji : Nat → Option Nat)
    (ns : List GltfNode) (k : Nat) (a : Arena) :
    ((List.enumFrom k ns).foldl (fun s p => processNode sm ji s p.1 p.2) a).orphans =
      (allChildren ns).foldl (fun o c => o.erase c) a.orphans := by
  induction ns generalizing k a with
  | nil => simp [allChildren]
  | cons nd rest ih =>
    simp only [List.enumFrom, List.foldl_cons]
    rw [ih, processNode_orphans]
    simp [allChildren, List.foldl_append]

theorem buildFold_rootChildren (sm : List (Nat × Nat)) (ji : Nat → Option Nat)
    (ns : List GltfNode) (k : Nat) (a : Arena) :
    ((List.enumFrom k ns).foldl (fun s p => processNode sm ji s p.1 p.2) a).rootChildren =
      a.rootChildren := by
  induction ns generalizing k a with
  | nil => rfl
  | cons nd rest ih =>
    simp only [List.enumFrom, List.foldl_cons]
    rw [ih, processNode_rootChildren]

theorem buildFold_skinOf (sm : List (Nat × Nat)) (ji : Nat → Option Nat)
    (ns : List GltfNode) (k : Nat) (a : Arena) (x : Nat) :
    ((List.enumFrom k ns).foldl (fun s p => processNode sm ji s p.1 p.2) a).skinOf x =
      if k ≤ x ∧ x < k + ns.length then ji x else a.skinOf x := by
  induction ns generalizing k a with
  | nil =>
    simp only [List.enumFrom, List.foldl_nil, List.length_nil]
    rw [if_neg (by omega : ¬ (k ≤ x ∧ x < k + 0))]
  | cons nd rest ih =>
    simp only [List.enumFrom, List.foldl_cons, List.length_cons]
    rw [ih, processNode_skinOf]
    by_cases h1 : k + 1 ≤ x ∧ x < k + 1 + rest.length
    · rw [if_pos h1, if_pos (by omega : k ≤ x ∧ x < k + (rest.length + 1))]
    · rw [if_neg h1]
      by_cases hx : x = k
      · subst hx
        rw [if_pos rfl, if_pos (by omega : x ≤ x ∧ x < x + (rest.length + 1))]
      · rw [if_neg hx, if_neg (by omega : ¬ (k ≤ x ∧ x < k + (rest.length + 1)))]

/-! ## The erase fold equals a filter on duplicate-free lists -/

theorem foldl_erase_eq_filter (cs : List Nat) :
    ∀ l : List Nat, l.Nodup →
      cs.foldl (fun o c => o.erase c) l = l.filter (fun x => decide (x ∉ cs)) := by
  induction cs with
  | nil => intro l _; simp
  | cons c cs ih =>
    intro l hl
    simp only [List.foldl_cons]
    rw [List.Nodup.erase_eq_filter hl, ih _ (hl.filter _), List.filter_filter]
    apply List.filter_congr
    intro x _
    by_cases h1 : x = c <;> by_cases h2 : x ∈ cs <;> simp [h1, h2]

theorem buildNodesPass_orphans (sm : List (Nat × Nat)) (ji : Nat → Option Nat)
    (ns : List GltfNode) :
    (buildNodesPass sm ji ns).orphans = orphansOf ns := by
  unfold buildNodesPass
  rw [show ns.enum = List.enumFrom 0 ns from rfl, buildFold_orphans]
  exact foldl_erase_eq_filter _ _ (List.nodup_range _)

theorem buildNodesPass_rootChildren (sm : List (Nat × Nat)) (ji : Nat → Option Nat)
    (ns : List GltfNode) :
    (buildNodesPass sm ji ns).rootChildren = [] := by
  unfold buildNodesPass
  rw [show ns.enum = List.enumFrom 0 ns from rfl, buildFold_rootChildren]

theorem buildNodesPass_childMap (sm : List (Nat × Nat)) (ji : Nat → Option Nat)
    (ns : List GltfNode) (x : Nat) :
    (buildNodesPass sm ji ns).childMap x = childrenDecl ns x := by
  unfold buildNodesPass
  rw [show ns.enum = List.enumFrom 0 ns from rfl, buildFold_childMap]
  simp

theorem buildNodesPass_skinOf (sm : List (Nat × Nat)) (ji : Nat → Option Nat)
    (ns : List GltfNode) (x : Nat) :
    (buildNodesPass sm ji ns).skinOf x =
      if x < ns.length then ji x else none := by
  unfold buildNodesPass
  rw [show ns.enum = List.enumFrom 0 ns from rfl, buildFold_skinOf]
  simp

/-! ## The attachment stage -/

theorem attachOrphans_rootChildren (sm : List (Nat × Nat)) (ji : Nat → Option Nat)
    (ns : List GltfNode) :
    (attachOrphans (buildNodesPass sm ji ns)).rootChildren =
      (orphansOf ns).insertionSort jsStrLess := by
  unfold attachOrphans
  rw [foldl_attachOrphan_rootChildren, buildNodesPass_rootChildren,
    buildNodesPass_orphans]
  simp

/-- C2 counterexample: with eleven orphans the default JavaScript sort
compares decimal strings, so the attachment order is 0, 1, 10, 2, ..., 9,
not the ascending index order 0, 1, 2, ..., 10 the spec promises. -/
theorem orphan_order_counterexample :
    (attachOrphans (buildNodesPass [] (fun _ => none) nodesElevenOrphans)).rootChildren =
      [0, 1, 10, 2, 3, 4, 5, 6, 7, 8, 9] ∧
    (attachOrphans (buildNodesPass [] (fun _ => none) nodesElevenOrphans)).rootChildren ≠
      List.range 11 := by
  constructor
  · decide
  · decide

/-- C2 (amended): every orphan (node not declared as any node's child) is
attached to the virtual root, exactly once each, but ordered by the
lexicographic order of the decimal index strings (the JavaScript default
sort), which agrees with ascending index order only while no index of ten
or more is compared against a smaller multi-digit-incompatible index. -/
theorem orphan_attachment_sorted (sm : List (Nat × Nat)) (ji : Nat → Option Nat)
    (ns : List GltfNode) :
    (attachOrphans (buildNodesPass sm ji ns)).rootChildren.Perm (orphansOf ns) ∧
    List.Sorted jsStrLess (attachOrphans (buildNodesPass sm ji ns)).rootChildren ∧
    ∀ x ∈ (attachOrphans (buildNodesPass sm ji ns)).rootChildren,
      (attachOrphans (buildNodesPass sm ji ns)).parentMap x = ParentRef.root := by
  refine ⟨?_, ?_, ?_⟩
  · rw [attachOrphans_rootChildren]
    exact List.perm_insertionSort _ _
  · rw [attachOrphans_rootChildren]
    exact List.sorted_insertionSort _ _
  · intro x hx
    rw [attachOrphans_rootChildren] at hx
    unfold attachOrphans
    rw [foldl_attachOrphan_parentMap, buildNodesPass_orphans]
    simp [hx]

/-! ## Index lookup lemmas -/

theorem getD_mem (l : List Nat) (j : Nat) (hj : j < l.length) : l.getD j 0 ∈ l := by
  induction l generalizing j with
  | nil => simp at hj
  | cons y ys ih =>
    cases j with
    | zero => simp
    | succ j =>
      have h1 : j < ys.length := by simpa using hj
      rw [List.getD_cons_succ]
      exact List.mem_cons_of_mem _ (ih j h1)

theorem idxOf?_eq_some {x : Nat} {l : List Nat} {j : Nat} (h : idxOf? x l = some j) :
    j < l.length ∧ l.getD j 0 = x := by
  induction l generalizing j with
  | nil => simp [idxOf?] at h
  | cons y ys ih =>
    by_cases hy : y = x
    · simp only [idxOf?, if_pos hy] at h
      cases h
      simpa using hy
    · simp only [idxOf?, if_neg hy] at h
      rcases Option.map_eq_some'.mp h with ⟨j', hj', rfl⟩
      rcases ih hj' with ⟨h1, h2⟩
      exact ⟨by simpa using Nat.succ_lt_succ h1, by simpa using h2⟩

theorem idxOf?_getD (l : List Nat) (hnd : l.Nodup) (j : Nat) (hj : j < l.length) :
    idxOf? (l.getD j 0) l = some j := by
  induction l generalizing j with
  | nil => simp at hj
  | cons y ys ih =>
    cases j with
    | zero => simp [idxOf?]
    | succ j =>
      have hjy : j < ys.length := by simpa using Nat.lt_of_succ_lt_succ (by simpa using hj)
      have hmem : ys.getD j 0 ∈ ys := getD_mem ys j hjy
      have hy : y ≠ ys.getD j 0 := by
        intro hcontra
        exact (List.nodup_cons.mp hnd).1 (hcontra ▸ hmem)
      simp only [List.getD_cons_succ, idxOf?, if_neg hy]
      rw [ih (List.nodup_cons.mp hnd).2 j hjy]
      rfl

theorem idxOf?_eq_none {x : Nat} {l : List Nat} (h : x ∉ l) : idxOf? x l = none := by
  induction l with
  | nil => rfl
  | cons y ys ih =>
    have hy : y ≠ x := fun hc => h (hc ▸ List.mem_cons_self y ys)
    simp only [idxOf?, if_neg hy]
    rw [ih (fun hc => h (List.mem_cons_of_mem _ hc))]
    rfl

/-! ## The Node.reverse loop invariant -/

theorem reverseLoop_invariant (a : Arena)
    (hnd : a.rootChildren.Nodup)
    (hdisj : ∀ j1, j1 < a.rootChildren.length → ∀ j2, j2 < a.rootChildren.length →
      j1 ≠ j2 → ∀ c, c ∈ a.childMap (a.rootChildren.getD j1 0) →
        c ∉ a.childMap (a.rootChildren.getD j2 0))
    (t : Nat) (ht : t ≤ a.rootChildren.length / 2) :
    ((List.range t).foldl reverseStep a).rootChildren = a.rootChildren ∧
    (∀ x, ((List.range t).foldl reverseStep a).childMap x =
      match idxOf? x a.rootChildren with
      | some j =>
        if j < t ∨ a.rootChildren.length - 1 - j < t then
          a.childMap (a.rootChildren.getD (a.rootChildren.length - 1 - j) 0)
        else a.childMap x
      | none => a.childMap x) ∧
    (∀ j, j < a.rootChildren.length → (j < t ∨ a.rootChildren.length - 1 - j < t) →
      ∀ c ∈ a.childMap (a.rootChildren.getD (a.rootChildren.length - 1 - j) 0),
        ((List.range t).foldl reverseStep a).parentMap c =
          ParentRef.node (a.rootChildren.getD j 0)) ∧
    (∀ c, (∀ j, j < a.rootChildren.length →
        (j < t ∨ a.rootChildren.length - 1 - j < t) →
        c ∉ a.childMap (a.rootChildren.getD j 0)) →
      ((List.range t).foldl reverseStep a).parentMap c = a.parentMap c) := by
  induction t with
  | zero =>
    refine ⟨rfl, ?_, ?_, fun c _ => rfl⟩
    · intro x
      cases hx : idxOf? x a.rootChildren with
      | none => simp only [List.range_zero, List.foldl_nil, hx]
      | some j =>
        simp only [List.range_zero, List.foldl_nil, hx]
        rw [if_neg (by omega)]
    · intro j hj hr
      exact absurd hr (by omega)
  | succ t ih =>
    have ht' : t ≤ a.rootChildren.length / 2 := Nat.le_of_succ_le ht
    obtain ⟨ih1, ih2, ih3, ih4⟩ := ih ht'
    have hdiv : a.rootChildren.length / 2 * 2 ≤ a.rootChildren.length :=
      Nat.div_mul_le_self _ 2
    have htk : 2 * t + 2 ≤ a.rootChildren.length := by omega
    rw [List.range_succ, List.foldl_append, List.foldl_cons, List.foldl_nil]
    generalize hB : (List.range t).foldl reverseStep a = b at ih1 ih2 ih3 ih4
    have hk2 : t < a.rootChildren.length := by omega
    have hk3 : a.rootChildren.length - t - 1 < a.rootChildren.length := by omega
    have hmid : t < a.rootChildren.length - t - 1 := by omega
    have hidxF : idxOf? (a.rootChildren.getD t 0) a.rootChildren = some t :=
      idxOf?_getD _ hnd _ hk2
    have hidxS : idxOf? (a.rootChildren.getD (a.rootChildren.length - t - 1) 0)
        a.rootChildren = some (a.rootChildren.length - t - 1) :=
      idxOf?_getD _ hnd _ hk3
    have hbF : b.childMap (a.rootChildren.getD t 0) =
        a.childMap (a.rootChildren.getD t 0) := by
      rw [ih2]
      simp only [hidxF]
      rw [if_neg (by omega)]
    have hbS : b.childMap (a.rootChildren.getD (a.rootChildren.length - t - 1) 0) =
        a.childMap (a.rootChildren.getD (a.rootChildren.length - t - 1) 0) := by
      rw [ih2]
      simp only [hidxS]
      rw [if_neg (by omega)]
    have hstep_child : ∀ x, (reverseStep b t).childMap x =
        if x = a.rootChildren.getD t 0 then
          b.childMap (a.rootChildren.getD (a.rootChildren.length - t - 1) 0)
        else if x = a.rootChildren.getD (a.rootChildren.length - t - 1) 0 then
          b.childMap (a.rootChildren.getD t 0)
        else b.childMap x := by
      intro x
      simp only [reverseStep, ih1]
    have hstep_par : ∀ c, (reverseStep b t).parentMap c =
        if c ∈ b.childMap (a.rootChildren.getD (a.rootChildren.length - t - 1) 0) then
          ParentRef.node (a.rootChildren.getD t 0)
        else if c ∈ b.childMap (a.rootChildren.getD t 0) then
          ParentRef.node (a.rootChildren.getD (a.rootChildren.length - t - 1) 0)
        else b.parentMap c := by
      intro c
      simp only [reverseStep, ih1]
    have hstep_root : (reverseStep b t).rootChildren = a.rootChildren := by
      simp only [reverseStep]
      exact ih1
    refine ⟨hstep_root, ?_, ?_, ?_⟩
    · -- the childMap region formula at t+1
      intro x
      rw [hstep_child x]
      by_cases hxF : x = a.rootChildren.getD t 0
      · rw [if_pos hxF, hbS]
        simp only [show idxOf? x a.rootChildren = some t from hxF ▸ hidxF]
        rw [if_pos (Or.inl (by omega))]
        have he : a.rootChildren.length - 1 - t = a.rootChildren.length - t - 1 := by omega
        rw [he]
      · by_cases hxS : x = a.rootChildren.getD (a.rootChildren.length - t - 1) 0
        · rw [if_neg hxF, if_pos hxS, hbF]
          simp only [show idxOf? x a.rootChildren =
            some (a.rootChildren.length - t - 1) from hxS ▸ hidxS]
          rw [if_pos (Or.inr (by omega))]
          have he : a.rootChildren.length - 1 - (a.rootChildren.length - t - 1) = t := by
            omega
          rw [he]
        · rw [if_neg hxF, if_neg hxS, ih2 x]
          cases hx : idxOf? x a.rootChildren with
          | none => simp only [hx]
          | some j =>
            simp only [hx]
            rcases idxOf?_eq_some hx with ⟨hjlen, hxval⟩
            have hjt : j ≠ t := fun h => hxF (by rw [← hxval, h])
            have hjt2 : a.rootChildren.length - 1 - j ≠ t := by
              intro h
              apply hxS
              rw [← hxval]
              congr 1
              omega
            by_cases hr : (j < t ∨ a.rootChildren.length - 1 - j < t)
            · rw [if_pos hr, if_pos (by omega)]
            · rw [if_neg hr, if_neg (by omega)]
    · -- re-parented children at t+1
      intro j hj hr c hc
      rw [hstep_par c, hbF, hbS]
      by_cases hA : (j < t ∨ a.rootChildren.length - 1 - j < t)
      · have hne1 : a.rootChildren.length - 1 - j ≠ t := by omega
        have hne2 : a.rootChildren.length - 1 - j ≠ a.rootChildren.length - t - 1 := by
          omega
        have hnc1 : c ∉ a.childMap (a.rootChildren.getD
            (a.rootChildren.length - t - 1) 0) :=
          hdisj _ (by omega) _ hk3 hne2 c hc
        have hnc2 : c ∉ a.childMap (a.rootChildren.getD t 0) :=
          hdisj _ (by omega) _ hk2 hne1 c hc
        rw [if_neg hnc1, if_neg hnc2]
        exact ih3 j hj hA c hc
      · have : j = t ∨ a.rootChildren.length - 1 - j = t := by omega
        rcases this with rfl | hjq
        · have he : a.rootChildren.length - 1 - j = a.rootChildren.length - j - 1 := by
            omega
          rw [he] at hc
          rw [if_pos hc]
        · have hje : j = a.rootChildren.length - t - 1 := by omega
          have he : a.rootChildren.length - 1 - j = t := hjq
          rw [he] at hc
          have hnc1 : c ∉ a.childMap (a.rootChildren.getD
              (a.rootChildren.length - t - 1) 0) :=
            hdisj _ hk2 _ hk3 (by omega) c hc
          rw [if_neg hnc1, if_pos hc, hje]
    · -- untouched parents at t+1
      intro c hc
      have hcF : c ∉ a.childMap (a.rootChildren.getD t 0) :=
        hc t hk2 (Or.inl (by omega))
      have hcS : c ∉ a.childMap (a.rootChildren.getD
          (a.rootChildren.length - t - 1) 0) :=
        hc _ hk3 (Or.inr (by omega))
      rw [hstep_par c, hbF, hbS, if_neg hcS, if_neg hcF]
      exact ih4 c (fun j hj hr => hc j hj (by omega))

/-- C1 counterexample: on four named root nodes A B C D (indices 0..3) each
owning one leaf, the transform leaves the root children in place (the list
stays [0, 1, 2, 3], not the [3, 2, 1, 0] the spec's pairwise position swap
would produce), while the child lists are exchanged between the outer and
inner pairs. -/
theorem reverse_claim_counterexample :
    (builtArena [] (fun _ => none) nodesFourRoots).rootChildren = [0, 1, 2, 3] ∧
    (builtArena [] (fun _ => none) nodesFourRoots).rootChildren ≠ [3, 2, 1, 0] ∧
    (builtArena [] (fun _ => none) nodesFourRoots).childMap 0 = [7] ∧
    (builtArena [] (fun _ => none) nodesFourRoots).childMap 3 = [4] := by
  refine ⟨by decide, by decide, by decide, by decide⟩

/-- C1 (amended): for root children with pairwise-disjoint child lists (as
any well-formed build produces), Node.reverse does NOT swap the root
children's positions — the root child list is unchanged — and instead
exchanges the child lists of the outside-in pairs wholesale (so the moved
grandchildren keep their relative order and their own subtrees, one level
only: nodes that are not root children keep their child lists), re-parenting
each pair's children to the other node of the pair. -/
theorem reverse_one_level (a : Arena)
    (hnd : a.rootChildren.Nodup)
    (hdisj : ∀ j1, j1 < a.rootChildren.length → ∀ j2, j2 < a.rootChildren.length →
      j1 ≠ j2 → ∀ c, c ∈ a.childMap (a.rootChildren.getD j1 0) →
        c ∉ a.childMap (a.rootChildren.getD j2 0)) :
    (Arena.reverse a).rootChildren = a.rootChildren ∧
    (∀ j, j < a.rootChildren.length →
      (Arena.reverse a).childMap (a.rootChildren.getD j 0) =
        a.childMap (a.rootChildren.getD (a.rootChildren.length - 1 - j) 0)) ∧
    (∀ x, x ∉ a.rootChildren → (Arena.reverse a).childMap x = a.childMap x) ∧
    (∀ j, j < a.rootChildren.length → j ≠ a.rootChildren.length - 1 - j →
      ∀ c ∈ a.childMap (a.rootChildren.getD (a.rootChildren.length - 1 - j) 0),
        (Arena.reverse a).parentMap c = ParentRef.node (a.rootChildren.getD j 0)) := by
  unfold Arena.reverse
  obtain ⟨p1, p2, p3, _p4⟩ :=
    reverseLoop_invariant a hnd hdisj (a.rootChildren.length / 2) (Nat.le_refl _)
  refine ⟨p1, ?_, ?_, ?_⟩
  · intro j hj
    rw [p2 (a.rootChildren.getD j 0)]
    simp only [idxOf?_getD _ hnd j hj]
    by_cases hr : (j < a.rootChildren.length / 2 ∨
        a.rootChildren.length - 1 - j < a.rootChildren.length / 2)
    · rw [if_pos hr]
    · rw [if_neg hr]
      have hmid : j = a.rootChildren.length - 1 - j := by omega
      rw [← hmid]
  · intro x hx
    rw [p2 x]
    simp only [idxOf?_eq_none hx]
  · intro j hj hne c hc
    exact p3 j hj (by omega) c hc

/-! ## Arena.reverse component preservation -/

theorem foldl_reverseStep_rootChildren (l : List Nat) (a : Arena) :
    (l.foldl reverseStep a).rootChildren = a.rootChildren := by
  induction l generalizing a with
  | nil => rfl
  | cons x xs ih =>
    rw [List.foldl_cons, ih]
    rfl

theorem foldl_reverseStep_skinOf (l : List Nat) (a : Arena) (x : Nat) :
    (l.foldl reverseStep a).skinOf x = a.skinOf x := by
  induction l generalizing a with
  | nil => rfl
  | cons y ys ih =>
    rw [List.foldl_cons, ih]
    rfl

theorem builtArena_rootChildren (sm : List (Nat × Nat)) (ji : Nat → Option Nat)
    (ns : List GltfNode) :
    (builtArena sm ji ns).rootChildren = (orphansOf ns).insertionSort jsStrLess := by
  unfold builtArena Arena.reverse
  rw [foldl_reverseStep_rootChildren, attachOrphans_rootChildren]

theorem builtArena_skinOf (sm : List (Nat × Nat)) (ji : Nat → Option Nat)
    (ns : List GltfNode) (x : Nat) :
    (builtArena sm ji ns).skinOf x = if x < ns.length then ji x else none := by
  unfold builtArena Arena.reverse
  rw [foldl_reverseStep_skinOf]
  unfold attachOrphans
  rw [foldl_attachOrphan_skinOf, buildNodesPass_skinOf]

/-! ## The textures phase -/

theorem genTextures_spec (file : String) (srcs : List Nat) :
    ∀ (id texCount : Nat) (seen : List Nat),
      (genTextures file srcs id texCount seen).1.length =
        ((srcs.filter (fun s => decide (s ∉ seen))).toFinset).card ∧
      (genTextures file srcs id texCount seen).2 =
        id + ((srcs.filter (fun s => decide (s ∉ seen))).toFinset).card := by
  induction srcs with
  | nil => intro id texCount seen; simp [genTextures]
  | cons s rest ih =>
    intro id texCount seen
    by_cases hs : s ∈ seen
    · have hfe : (s :: rest).filter (fun x => decide (x ∉ seen)) =
          rest.filter (fun x => decide (x ∉ seen)) := by
        simp [List.filter_cons, hs]
      rw [hfe]
      simpa [genTextures, hs] using ih id (texCount + 1) seen
    · have hfe : (s :: rest).filter (fun x => decide (x ∉ seen)) =
          s :: rest.filter (fun x => decide (x ∉ seen)) := by
        simp [List.filter_cons, hs]
      have hset : (rest.filter (fun x => decide (x ∉ s :: seen))).toFinset =
          ((rest.filter (fun x => decide (x ∉ seen))).toFinset).erase s := by
        ext x
        by_cases hx : x = s <;> simp [hx, List.mem_filter]
      have h1 : insert s ((rest.filter (fun x => decide (x ∉ seen))).toFinset) =
          insert s (((rest.filter (fun x => decide (x ∉ seen))).toFinset).erase s) := by
        ext x
        by_cases hx : x = s <;> simp [hx]
      have hcard :
          ((s :: rest.filter (fun x => decide (x ∉ seen))).toFinset).card =
            1 + ((rest.filter (fun x => decide (x ∉ s :: seen))).toFinset).card := by
        rw [List.toFinset_cons, h1,
          Finset.card_insert_of_not_mem (Finset.not_mem_erase _ _), hset]
        omega
      rcases ih (id + 1) (texCount + 1) (s :: seen) with ⟨ih1, ih2⟩
      constructor
      · rw [hfe, hcard]
        simp only [genTextures, if_neg hs]
        simp [ih1]
        omega
      · rw [hfe, hcard]
        simp only [genTextures, if_neg hs]
        simp [ih2]
        omega

/-! ## The scene phase on an empty node list -/

theorem genSceneObjects_some_nil (sm : List (Nat × Nat)) (ji : Nat → Option Nat)
    (iJ : List (Nat × List String)) (f : String) (id : Nat) :
    genSceneObjects sm ji iJ f (some []) id = ([], iJ, id) := by
  have h : visitOrder (builtArena sm ji []) (List.length ([] : List GltfNode)) = [] := by
    show visitOrder (builtArena sm ji []) 0 = []
    unfold visitOrder
    rw [builtArena_rootChildren]
    simp [orphansOf, dfsOrder]
  unfold genSceneObjects
  dsimp only
  rw [h]
  simp

/-- C5: texture entries are deduplicated by source image — the number of
allocated texture ids (and the ids consumed) equals the number of distinct
sources — while the default-name counter advances once per entry regardless,
so sources [0, 0, 1] allocate exactly two ids with names texture_0 and
texture_2. -/
theorem textures_dedup (file : String) (srcs : List Nat) (id0 : Nat) :
    ((genTextures file srcs id0 0 []).1.length = srcs.toFinset.card ∧
     (genTextures file srcs id0 0 []).2 = id0 + srcs.toFinset.card) ∧
    genTextures file [0, 0, 1] id0 0 [] =
      ([(id0, { link := { name := "texture_0", file := file } }),
        (id0 + 1, { link := { name := "texture_2", file := file } })], id0 + 2) := by
  constructor
  · have h := genTextures_spec file srcs id0 0 []
    have hf : srcs.filter (fun s => decide (s ∉ ([] : List Nat))) = srcs := by simp
    rw [hf] at h
    exact h
  · rfl

/-- C10: an absent top-level list behaves exactly like an empty one - the
whole generated project and final id counter coincide - and the
corresponding output mapping is left empty. -/
theorem absent_lists_empty (doc : GltfDoc) (file : String) (ratio : Int) (id : Nat) :
    (legacyGenerateProject { doc with nodes := none } file ratio id =
       legacyGenerateProject { doc with nodes := some [] } file ratio id ∧
     (legacyGenerateProject { doc with nodes := none } file ratio id).1.objects = []) ∧
    (legacyGenerateProject { doc with images := none } file ratio id =
       legacyGenerateProject { doc with images := some [] } file ratio id ∧
     (legacyGenerateProject { doc with images := none } file ratio id).1.images = []) ∧
    (legacyGenerateProject { doc with textures := none } file ratio id =
       legacyGenerateProject { doc with textures := some [] } file ratio id ∧
     (legacyGenerateProject { doc with textures := none } file ratio id).1.textures = []) ∧
    (legacyGenerateProject { doc with materials := none } file ratio id =
       legacyGenerateProject { doc with materials := some [] } file ratio id ∧
     (legacyGenerateProject { doc with materials := none } file ratio id).1.materials = []) ∧
    (legacyGenerateProject { doc with meshes := none } file ratio id =
       legacyGenerateProject { doc with meshes := some [] } file ratio id ∧
     (legacyGenerateProject { doc with meshes := none } file ratio id).1.meshes = []) ∧
    (legacyGenerateProject { doc with skins := none } file ratio id =
       legacyGenerateProject { doc with skins := some [] } file ratio id ∧
     (legacyGenerateProject { doc with skins := none } file ratio id).1.skins = []) ∧
    (legacyGenerateProject { doc with animations := none } file ratio id =
       legacyGenerateProject { doc with animations := some [] } file ratio id ∧
     (legacyGenerateProject { doc with animations := none } file ratio id).1.animations = []) := by
  refine ⟨⟨?_, rfl⟩, ⟨rfl, rfl⟩, ⟨rfl, rfl⟩, ⟨rfl, rfl⟩, ⟨rfl, rfl⟩, ⟨rfl, rfl⟩, ⟨rfl, rfl⟩⟩
  have hq : ∀ (sm : List (Nat × Nat)) (ji : Nat → Option Nat)
      (iJ : List (Nat × List String)) (f : String) (i : Nat),
      genSceneObjects sm ji iJ f none i = genSceneObjects sm ji iJ f (some []) i := by
    intro sm ji iJ f i
    rw [genSceneObjects_some_nil]
    dsimp only [genSceneObjects]
  simp only [legacyGenerateProject, stageImages, stageTextures, stageMaterials,
    stageMeshes, stageSkins, stageAnimations]
  rw [hq]

/-! ## Key-range lemmas for the allocation phases -/

theorem keysOf_append {α : Type} (l1 l2 : List (Nat × α)) :
    keysOf (l1 ++ l2) = keysOf l1 ++ keysOf l2 := List.map_append _ _ _

theorem genNamedEntries_spec (catName file : String) (l : List (Option String)) :
    ∀ (id dn : Nat),
      keysOf (genNamedEntries catName file l id dn).1 = List.range' id l.length ∧
      (genNamedEntries catName file l id dn).2 = id + l.length := by
  induction l with
  | nil => intro id dn; simp [genNamedEntries, keysOf]
  | cons nm rest ih =>
    intro id dn
    simp only [genNamedEntries]
    rcases ih (id + 1) ((resolveName catName dn nm).2) with ⟨ih1, ih2⟩
    constructor
    · simp [keysOf, List.range'] at ih1 ⊢
      rw [ih1]
    · simp [ih2]
      omega

theorem genMeshEntries_spec (file : String) (ratio : Int) (l : List (Option String)) :
    ∀ (id dn : Nat),
      keysOf (genMeshEntries file ratio l id dn).1 = List.range' id l.length ∧
      (genMeshEntries file ratio l id dn).2 = id + l.length := by
  induction l with
  | nil => intro id dn; simp [genMeshEntries, keysOf]
  | cons nm rest ih =>
    intro id dn
    simp only [genMeshEntries]
    rcases ih (id + 1) ((resolveName "mesh" dn nm).2) with ⟨ih1, ih2⟩
    constructor
    · simp [keysOf, List.range'] at ih1 ⊢
      rw [ih1]
    · simp [ih2]
      omega

theorem genTextures_keys (file : String) (srcs : List Nat) :
    ∀ (id texCount : Nat) (seen : List Nat),
      keysOf (genTextures file srcs id texCount seen).1 =
        List.range' id ((srcs.filter (fun s => decide (s ∉ seen))).toFinset).card := by
  induction srcs with
  | nil => intro id texCount seen; simp [genTextures, keysOf]
  | cons s rest ih =>
    intro id texCount seen
    by_cases hs : s ∈ seen
    · have hfe : (s :: rest).filter (fun x => decide (x ∉ seen)) =
          rest.filter (fun x => decide (x ∉ seen)) := by
        simp [List.filter_cons, hs]
      rw [hfe]
      simpa [genTextures, hs] using ih id (texCount + 1) seen
    · have hfe : (s :: rest).filter (fun x => decide (x ∉ seen)) =
          s :: rest.filter (fun x => decide (x ∉ seen)) := by
        simp [List.filter_cons, hs]
      have hset : (rest.filter (fun x => decide (x ∉ s :: seen))).toFinset =
          ((rest.filter (fun x => decide (x ∉ seen))).toFinset).erase s := by
        ext x
        by_cases hx : x = s <;> simp [hx, List.mem_filter]
      have h1 : insert s ((rest.filter (fun x => decide (x ∉ seen))).toFinset) =
          insert s (((rest.filter (fun x => decide (x ∉ seen))).toFinset).erase s) := by
        ext x
        by_cases hx : x = s <;> simp [hx]
      have hcard :
          ((s :: rest.filter (fun x => decide (x ∉ seen))).toFinset).card =
            ((rest.filter (fun x => decide (x ∉ s :: seen))).toFinset).card + 1 := by
        rw [List.toFinset_cons, h1,
          Finset.card_insert_of_not_mem (Finset.not_mem_erase _ _), hset]
      rw [hfe, hcard]
      simp only [genTextures, if_neg hs]
      have := ih (id + 1) (texCount + 1) (s :: seen)
      simp [keysOf, List.range'] at this ⊢
      rw [this]

theorem genSkins_spec (file : String) (l : List GltfSkin) :
    ∀ (id dn sid : Nat) (ji : Nat → Option Nat),
      keysOf (genSkins file l id dn sid ji).entries = List.range' id l.length ∧
      (genSkins file l id dn sid ji).idEnd = id + l.length := by
  induction l with
  | nil => intro id dn sid ji; simp [genSkins, keysOf]
  | cons sk rest ih =>
    intro id dn sid ji
    simp only [genSkins]
    rcases ih (id + 1) ((resolveName "skin" dn sk.name).2) (sid + 1)
      (setJoints ji sk.joints id) with ⟨ih1, ih2⟩
    constructor
    · simp [keysOf, List.range'] at ih1 ⊢
      rw [ih1]
    · simp [ih2]
      omega

theorem emitFold_spec (a : Arena) (file : String) (fuel : Nat) (vis : List Nat) :
    ∀ st : EmitState,
      keysOf ((vis.foldl (emitNode a file fuel) st).objects) =
        keysOf st.objects ++ List.range' st.id vis.length ∧
      (vis.foldl (emitNode a file fuel) st).id = st.id + vis.length := by
  induction vis with
  | nil => intro st; simp
  | cons n rest ih =>
    intro st
    rw [List.foldl_cons]
    rcases ih (emitNode a file fuel st n) with ⟨ih1, ih2⟩
    constructor
    · rw [ih1]
      show keysOf (st.objects ++ [(st.id, _)]) ++ List.range' (st.id + 1) rest.length = _
      rw [keysOf_append]
      simp [keysOf, List.range', List.append_assoc]
    · rw [ih2]
      show st.id + 1 + rest.length = st.id + (rest.length + 1)
      omega

theorem genSceneObjects_spec (sm : List (Nat × Nat)) (ji : Nat → Option Nat)
    (iJ : List (Nat × List String)) (f : String) (onodes : Option (List GltfNode))
    (id : Nat) :
    keysOf (genSceneObjects sm ji iJ f onodes id).1 =
      List.range' id (sceneCount sm ji onodes) ∧
    (genSceneObjects sm ji iJ f onodes id).2.2 = id + sceneCount sm ji onodes := by
  cases onodes with
  | none => simp [genSceneObjects, sceneCount, keysOf]
  | some ns =>
    rcases emitFold_spec (builtArena sm ji ns) f (ns.length + 1)
      (visitOrder (builtArena sm ji ns) ns.length)
      { objects := [], joints := iJ, idOf := fun _ => none, id := id } with ⟨h1, h2⟩
    unfold genSceneObjects
    dsimp only
    constructor
    · rw [h1]
      simp [keysOf, sceneCount]
    · rw [h2]
      simp [sceneCount]

/-! ## Stage-level key ranges -/

theorem stageImages_spec (doc : GltfDoc) (file : String) (id : Nat) :
    keysOf (stageImages doc file id).1 = List.range' id (imagesCount doc) ∧
    (stageImages doc file id).2 = id + imagesCount doc := by
  unfold stageImages imagesCount
  cases doc.images with
  | none => simp [keysOf]
  | some l => simpa using genNamedEntries_spec "image" file l id 0

theorem stageTextures_spec (doc : GltfDoc) (file : String) (id : Nat) :
    keysOf (stageTextures doc file id).1 = List.range' id (texturesCount doc) ∧
    (stageTextures doc file id).2 = id + texturesCount doc := by
  unfold stageTextures texturesCount
  cases doc.textures with
  | none => simp [keysOf]
  | some l =>
    have hk := genTextures_keys file l id 0 []
    have hs := genTextures_spec file l id 0 []
    have hf : l.filter (fun s => decide (s ∉ ([] : List Nat))) = l := by simp
    rw [hf] at hk hs
    exact ⟨by simpa using hk, by simpa using hs.2⟩

theorem stageMaterials_spec (doc : GltfDoc) (file : String) (id : Nat) :
    keysOf (stageMaterials doc file id).1 = List.range' id (materialsCount doc) ∧
    (stageMaterials doc file id).2 = id + materialsCount doc := by
  unfold stageMaterials materialsCount
  cases doc.materials with
  | none => simp [keysOf]
  | some l => simpa using genNamedEntries_spec "material" file l id 0

theorem stageMeshes_spec (doc : GltfDoc) (file : String) (ratio : Int) (id : Nat) :
    keysOf (stageMeshes doc file ratio id).1 = List.range' id (meshesCount doc) ∧
    (stageMeshes doc file ratio id).2 = id + meshesCount doc := by
  unfold stageMeshes meshesCount
  cases doc.meshes with
  | none => simp [keysOf]
  | some l => simpa using genMeshEntries_spec file ratio l id 0

theorem stageSkins_spec (doc : GltfDoc) (file : String) (id : Nat) :
    keysOf (stageSkins doc file id).entries = List.range' id (skinsCount doc) ∧
    (stageSkins doc file id).idEnd = id + skinsCount doc := by
  unfold stageSkins skinsCount
  cases doc.skins with
  | none => simp [keysOf]
  | some l => simpa using genSkins_spec file l id 0 0 (fun _ => none)

theorem stageAnimations_spec (doc : GltfDoc) (file : String) (id : Nat) :
    keysOf (stageAnimations doc file id).1 = List.range' id (animationsCount doc) ∧
    (stageAnimations doc file id).2 = id + animationsCount doc := by
  unfold stageAnimations animationsCount
  cases doc.animations with
  | none => simp [keysOf]
  | some l => simpa using genNamedEntries_spec "animation" file l id 0

/-- C6: ids are handed out from the single shared counter in the fixed
category order images, textures, materials, meshes, skins, scene objects,
animations: each category's keys form the contiguous range that starts
where the previous category stopped (the embedding's input document has no
key order, so the ranges themselves are the authoritative order), and the
final counter is the sum of all category sizes. -/
theorem allocation_order_fixed (doc : GltfDoc) (file : String) (ratio : Int)
    (id0 : Nat) :
    keysOf (legacyGenerateProject doc file ratio id0).1.images =
      List.range' id0 (imagesCount doc) ∧
    keysOf (legacyGenerateProject doc file ratio id0).1.textures =
      List.range' (id0 + imagesCount doc) (texturesCount doc) ∧
    keysOf (legacyGenerateProject doc file ratio id0).1.materials =
      List.range' (id0 + imagesCount doc + texturesCount doc) (materialsCount doc) ∧
    keysOf (legacyGenerateProject doc file ratio id0).1.meshes =
      List.range' (id0 + imagesCount doc + texturesCount doc + materialsCount doc)
        (meshesCount doc) ∧
    keysOf (legacyGenerateProject doc file ratio id0).1.skins =
      List.range' (id0 + imagesCount doc + texturesCount doc + materialsCount doc +
        meshesCount doc) (skinsCount doc) ∧
    keysOf (legacyGenerateProject doc file ratio id0).1.objects =
      List.range' (id0 + imagesCount doc + texturesCount doc + materialsCount doc +
        meshesCount doc + skinsCount doc)
        (objectsCount doc file (id0 + imagesCount doc + texturesCount doc +
          materialsCount doc + meshesCount doc)) ∧
    keysOf (legacyGenerateProject doc file ratio id0).1.animations =
      List.range' (id0 + imagesCount doc + texturesCount doc + materialsCount doc +
        meshesCount doc + skinsCount doc +
        objectsCount doc file (id0 + imagesCount doc + texturesCount doc +
          materialsCount doc + meshesCount doc)) (animationsCount doc) ∧
    (legacyGenerateProject doc file ratio id0).2 =
      id0 + imagesCount doc + texturesCount doc + materialsCount doc +
        meshesCount doc + skinsCount doc +
        objectsCount doc file (id0 + imagesCount doc + texturesCount doc +
          materialsCount doc + meshesCount doc) + animationsCount doc := by
  obtain ⟨h1k, h1e⟩ := stageImages_spec doc file id0
  rcases hA : stageImages doc file id0 with ⟨imagesL, id1⟩
  rw [hA] at h1k h1e
  dsimp only at h1k h1e
  subst h1e
  obtain ⟨h2k, h2e⟩ := stageTextures_spec doc file (id0 + imagesCount doc)
  rcases hB : stageTextures doc file (id0 + imagesCount doc) with ⟨texturesL, id2⟩
  rw [hB] at h2k h2e
  dsimp only at h2k h2e
  subst h2e
  obtain ⟨h3k, h3e⟩ := stageMaterials_spec doc file
    (id0 + imagesCount doc + texturesCount doc)
  rcases hC : stageMaterials doc file (id0 + imagesCount doc + texturesCount doc)
    with ⟨materialsL, id3⟩
  rw [hC] at h3k h3e
  dsimp only at h3k h3e
  subst h3e
  obtain ⟨h4k, h4e⟩ := stageMeshes_spec doc file ratio
    (id0 + imagesCount doc + texturesCount doc + materialsCount doc)
  rcases hD : stageMeshes doc file ratio
    (id0 + imagesCount doc + texturesCount doc + materialsCount doc)
    with ⟨meshesL, id4⟩
  rw [hD] at h4k h4e
  dsimp only at h4k h4e
  subst h4e
  obtain ⟨h5k, h5e⟩ := stageSkins_spec doc file
    (id0 + imagesCount doc + texturesCount doc + materialsCount doc + meshesCount doc)
  obtain ⟨h6k, h6e⟩ := genSceneObjects_spec
    (stageSkins doc file (id0 + imagesCount doc + texturesCount doc +
      materialsCount doc + meshesCount doc)).skinsMap
    (stageSkins doc file (id0 + imagesCount doc + texturesCount doc +
      materialsCount doc + meshesCount doc)).jointIdxs
    (initJointsOf (stageSkins doc file (id0 + imagesCount doc + texturesCount doc +
      materialsCount doc + meshesCount doc)).entries)
    file doc.nodes
    ((stageSkins doc file (id0 + imagesCount doc + texturesCount doc +
      materialsCount doc + meshesCount doc)).idEnd)
  rcases hE : genSceneObjects
    (stageSkins doc file (id0 + imagesCount doc + texturesCount doc +
      materialsCount doc + meshesCount doc)).skinsMap
    (stageSkins doc file (id0 + imagesCount doc + texturesCount doc +
      materialsCount doc + meshesCount doc)).jointIdxs
    (initJointsOf (stageSkins doc file (id0 + imagesCount doc + texturesCount doc +
      materialsCount doc + meshesCount doc)).entries)
    file doc.nodes
    ((stageSkins doc file (id0 + imagesCount doc + texturesCount doc +
      materialsCount doc + meshesCount doc)).idEnd)
    with ⟨objectsL, jointsL, id6⟩
  rw [hE] at h6k h6e
  dsimp only at h6k h6e
  rw [h5e] at h6k h6e
  subst h6e
  obtain ⟨h7k, h7e⟩ := stageAnimations_spec doc file
    (id0 + imagesCount doc + texturesCount doc + materialsCount doc +
      meshesCount doc + skinsCount doc +
      sceneCount (stageSkins doc file (id0 + imagesCount doc + texturesCount doc +
        materialsCount doc + meshesCount doc)).skinsMap
        (stageSkins doc file (id0 + imagesCount doc + texturesCount doc +
          materialsCount doc + meshesCount doc)).jointIdxs doc.nodes)
  rcases hF : stageAnimations doc file
    (id0 + imagesCount doc + texturesCount doc + materialsCount doc +
      meshesCount doc + skinsCount doc +
      sceneCount (stageSkins doc file (id0 + imagesCount doc + texturesCount doc +
        materialsCount doc + meshesCount doc)).skinsMap
        (stageSkins doc file (id0 + imagesCount doc + texturesCount doc +
          materialsCount doc + meshesCount doc)).jointIdxs doc.nodes)
    with ⟨animationsL, id7⟩
  rw [hF] at h7k h7e
  dsimp only at h7k h7e
  subst h7e
  simp only [legacyGenerateProject, hA, hB, hC, hD, hE, hF, objectsCount]
  refine ⟨h1k, h2k, h3k, h4k, ?_, ?_, ?_, ?_⟩
  · simpa [keysOf] using h5k
  · exact h6k
  · exact h7k
  · trivial

/-! ## Joints bookkeeping during emission -/

theorem lookupA_cons {α : Type} (p : Nat × α) (rest : List (Nat × α)) (q : Nat) :
    lookupA (p :: rest) q = if p.1 = q then some p.2 else lookupA rest q := by
  by_cases h : p.1 = q
  · simp [lookupA, List.find?, h]
  · have hb : (p.1 == q) = false := by simp [h]
    simp [lookupA, List.find?, h, hb]

theorem lookupA_updateJoints (l : List (Nat × List String)) (s : Nat) (v : String)
    (q : Nat) :
    lookupA (updateJoints l s v) q =
      if q = s then (lookupA l q).map (fun js => js ++ [v]) else lookupA l q := by
  induction l with
  | nil => by_cases hq : q = s <;> simp [updateJoints, lookupA, hq]
  | cons p rest ih =>
    have hu : updateJoints (p :: rest) s v =
        (if p.1 = s then (p.1, p.2 ++ [v]) else p) :: updateJoints rest s v := by
      simp [updateJoints]
    have hhd : (if p.1 = s then (p.1, p.2 ++ [v]) else p).1 = p.1 := by
      by_cases h : p.1 = s <;> simp [h]
    rw [hu, lookupA_cons, lookupA_cons, hhd]
    by_cases hpq : p.1 = q
    · rw [if_pos hpq]
      by_cases hqs : q = s
      · have hps : p.1 = s := by rw [hpq, hqs]
        rw [if_pos hqs, if_pos hpq, if_pos hps]
        simp
      · have hps : ¬ p.1 = s := by rw [hpq]; exact hqs
        rw [if_neg hqs, if_pos hpq, if_neg hps]
    · rw [if_neg hpq, ih]
      by_cases hqs : q = s
      · rw [if_pos hqs, if_pos hqs, if_neg hpq]
      · rw [if_neg hqs, if_neg hqs, if_neg hpq]

theorem lookupA_initJointsOf (entries : List (Nat × Link)) (i : Nat)
    (h : i ∈ keysOf entries) : lookupA (initJointsOf entries) i = some [] := by
  induction entries with
  | nil => simp [keysOf] at h
  | cons p rest ih =>
    have hu : initJointsOf (p :: rest) = (p.1, ([] : List String)) :: initJointsOf rest :=
      rfl
    rw [hu, lookupA_cons]
    by_cases hp : p.1 = i
    · rw [if_pos hp]
    · have hmem : i ∈ keysOf rest := by
        simp only [keysOf, List.map_cons, List.mem_cons] at h
        rcases h with h | h
        · exact absurd h.symm hp
        · simpa [keysOf] using h
      rw [if_neg hp]
      exact ih hmem

theorem emitFold_joints (a : Arena) (file : String) (fuel : Nat) (vis : List Nat) :
    ∀ (st : EmitState) (s : Nat) (js : List String),
      lookupA st.joints s = some js →
      lookupA ((vis.foldl (emitNode a file fuel) st).joints) s =
        some (js ++ dfsJointIds a vis st.id s) := by
  induction vis with
  | nil =>
    intro st s js h
    simpa [dfsJointIds] using h
  | cons n rest ih =>
    intro st s js h
    rw [List.foldl_cons]
    have hj : (emitNode a file fuel st n).joints =
        match a.skinOf n with
        | some s0 => updateJoints st.joints s0 (toString st.id)
        | none => st.joints := rfl
    have hid : (emitNode a file fuel st n).id = st.id + 1 := rfl
    cases hsk : a.skinOf n with
    | none =>
      have h' : lookupA (emitNode a file fuel st n).joints s = some js := by
        rw [hj]
        simp only [hsk]
        exact h
      have hrec := ih (emitNode a file fuel st n) s js h'
      rw [hid] at hrec
      rw [hrec,
        show dfsJointIds a (n :: rest) st.id s = dfsJointIds a rest (st.id + 1) s from by
          simp [dfsJointIds, hsk]]
    | some s0 =>
      by_cases hs0 : s0 = s
      · subst hs0
        have h' : lookupA (emitNode a file fuel st n).joints s0 =
            some (js ++ [toString st.id]) := by
          rw [hj]
          simp only [hsk]
          rw [lookupA_updateJoints, if_pos rfl, h]
          rfl
        have hrec := ih (emitNode a file fuel st n) s0 (js ++ [toString st.id]) h'
        rw [hid] at hrec
        rw [hrec,
          show dfsJointIds a (n :: rest) st.id s0 =
              toString st.id :: dfsJointIds a rest (st.id + 1) s0 from by
            simp [dfsJointIds, hsk]]
        simp
      · have h' : lookupA (emitNode a file fuel st n).joints s = some js := by
          rw [hj]
          simp only [hsk]
          rw [lookupA_updateJoints, if_neg (fun hc => hs0 hc.symm)]
          exact h
        have hrec := ih (emitNode a file fuel st n) s js h'
        rw [hid] at hrec
        rw [hrec,
          show dfsJointIds a (n :: rest) st.id s = dfsJointIds a rest (st.id + 1) s from by
            simp [dfsJointIds, hsk, hs0]]

theorem legacyGenerateProject_skins (doc : GltfDoc) (file : String) (ratio : Int)
    (id0 : Nat) :
    (legacyGenerateProject doc file ratio id0).1.skins =
      (skinsPhaseOf doc file ratio id0).entries.map
        (fun p =>
          (p.1,
           { link := p.2,
             joints := (lookupA (sceneResultOf doc file ratio id0).2.1 p.1).getD [] })) := by
  rcases hA : stageImages doc file id0 with ⟨imagesL, id1⟩
  rcases hB : stageTextures doc file id1 with ⟨texturesL, id2⟩
  rcases hC : stageMaterials doc file id2 with ⟨materialsL, id3⟩
  rcases hD : stageMeshes doc file ratio id3 with ⟨meshesL, id4⟩
  rcases hE : genSceneObjects (stageSkins doc file id4).skinsMap
    (stageSkins doc file id4).jointIdxs (initJointsOf (stageSkins doc file id4).entries)
    file doc.nodes (stageSkins doc file id4).idEnd with ⟨objectsL, jointsL, id6⟩
  simp only [legacyGenerateProject, skinsPhaseOf, sceneResultOf, idAfterMeshes,
    hA, hB, hC, hD, hE]

/-- C7: every emitted skin entry's joints list holds the stringified object
ids of exactly the visited nodes recorded as joints of that skin via the
joint-index map, in DFS-visitation order of the transformed tree with the
sequential visit-time ids (dfsJointIds), not in declaration order. -/
theorem skin_joints_dfs_order (doc : GltfDoc) (file : String) (ratio : Int)
    (id0 : Nat) (i : Nat) (e : SkinEntry)
    (h : (i, e) ∈ (legacyGenerateProject doc file ratio id0).1.skins) :
    e.joints = sceneJoints (skinsPhaseOf doc file ratio id0).skinsMap
      (skinsPhaseOf doc file ratio id0).jointIdxs i
      (skinsPhaseOf doc file ratio id0).idEnd doc.nodes := by
  rw [legacyGenerateProject_skins] at h
  rcases List.mem_map.mp h with ⟨p, hp, heq⟩
  have hkey : p.1 ∈ keysOf (skinsPhaseOf doc file ratio id0).entries :=
    List.mem_map_of_mem _ hp
  rw [Prod.mk.injEq] at heq
  obtain ⟨hi, he⟩ := heq
  subst hi
  rw [← he]
  show (lookupA (sceneResultOf doc file ratio id0).2.1 p.1).getD [] = _
  cases hn : doc.nodes with
  | none =>
    unfold sceneResultOf
    rw [hn]
    dsimp only [genSceneObjects, sceneJoints]
    rw [lookupA_initJointsOf _ _ hkey]
    rfl
  | some ns =>
    unfold sceneResultOf
    rw [hn]
    dsimp only [genSceneObjects, sceneJoints]
    rw [emitFold_joints _ _ _ _ _ _ []
      (lookupA_initJointsOf (skinsPhaseOf doc file ratio id0).entries p.1 hkey)]
    rfl

/-- C7 witness: in docSkinW the skin declares joints X then Y, the
traversal visits Y first, and the emitted joints list is [id Y, id X] =
["12", "13"]. -/
theorem skin_joints_dfs_order_witness :
    (10, skinEntryW) ∈ (legacyGenerateProject docSkinW "m.gltf" 1 10).1.skins ∧
    skinEntryW.joints = sceneJoints (skinsPhaseOf docSkinW "m.gltf" 1 10).skinsMap
      (skinsPhaseOf docSkinW "m.gltf" 1 10).jointIdxs 10
      (skinsPhaseOf docSkinW "m.gltf" 1 10).idEnd docSkinW.nodes :=
  ⟨by decide, skin_joints_dfs_order docSkinW "m.gltf" 1 10 10 skinEntryW (by decide)⟩

/-- C1 amended witness: the characterization applied to the concrete
four-root tree of nodesFourRoots. -/
theorem reverse_one_level_witness :
    (Arena.reverse preArenaW).rootChildren = preArenaW.rootChildren ∧
    (∀ j, j < preArenaW.rootChildren.length →
      (Arena.reverse preArenaW).childMap (preArenaW.rootChildren.getD j 0) =
        preArenaW.childMap
          (preArenaW.rootChildren.getD (preArenaW.rootChildren.length - 1 - j) 0)) ∧
    (∀ x, x ∉ preArenaW.rootChildren →
      (Arena.reverse preArenaW).childMap x = preArenaW.childMap x) ∧
    (∀ j, j < preArenaW.rootChildren.length →
      j ≠ preArenaW.rootChildren.length - 1 - j →
      ∀ c ∈ preArenaW.childMap
          (preArenaW.rootChildren.getD (preArenaW.rootChildren.length - 1 - j) 0),
        (Arena.reverse preArenaW).parentMap c =
          ParentRef.node (preArenaW.rootChildren.getD j 0)) :=
  reverse_one_level preArenaW (by decide) (by decide)

/-- indexOf finds every element that is present. -/
theorem idxOf?_isSome_of_mem {x : Nat} {l : List Nat} (h : x ∈ l) :
    (idxOf? x l).isSome = true := by
  induction l with
  | nil => cases h
  | cons y ys ih =>
    by_cases hy : y = x
    · simp [idxOf?, hy]
    · have hx : x ∈ ys := by
        rcases List.mem_cons.mp h with h1 | h2
        · exact absurd h1.symm hy
        · exact h2
      cases hk : idxOf? x ys with
      | none => rw [hk] at ih; exact absurd (ih hx) (by simp)
      | some k => simp [idxOf?, if_neg hy, hk]

/-- C9: on an arena whose first n nodes satisfy the placement invariant
(parentOkB: parents never null, every node listed in its parent's child
list, parent ids assigned, heights h decreasing toward the root), the path
getter returns, for every node below n with enough fuel, exactly the
spec's recurrence pathSpec — localName for a root child, localName + "<" +
parent path otherwise — and in particular the defensive
'Node not present in parent' branch is never taken. -/
theorem path_spec_correct (a : Arena) (idOf : Nat → Option Nat) (h : Nat → Nat)
    (n : Nat) (hw : ∀ j, j < n → parentOkB a idOf h n j = true) :
    ∀ fuel i, i < n → h i < fuel →
      pathOf a idOf fuel i = PathResult.ok (pathSpec a fuel i) ∧
      pathOf a idOf fuel i ≠ PathResult.errNotInParent := by
  intro fuel
  induction fuel with
  | zero => intro i _hi hf; exact absurd hf (Nat.not_lt_zero _)
  | succ fuel ih =>
    intro i hi hf
    have hwi := hw i hi
    have hmain : pathOf a idOf (fuel + 1) i = PathResult.ok (pathSpec a (fuel + 1) i) := by
      cases hp : a.parentMap i with
      | null => rw [parentOkB, hp] at hwi; exact absurd hwi (by simp)
      | root =>
        rw [parentOkB, hp, decide_eq_true_eq] at hwi
        show (match a.parentMap i with
          | ParentRef.null => PathResult.errNullParent
          | ParentRef.root =>
            match a.names i with
            | some nm => PathResult.ok nm
            | none =>
              match idxOf? i a.rootChildren with
              | some k => PathResult.ok ("object_" ++ toString k)
              | none => PathResult.errNotInParent
          | ParentRef.node p =>
            let nm? : Option String :=
              match a.names i with
              | some nm => some nm
              | none => (idxOf? i (a.childMap p)).map (fun k => "object_" ++ toString k)
            match nm? with
            | none => PathResult.errNotInParent
            | some nm =>
              match idOf p with
              | none => PathResult.ok nm
              | some _ =>
                match pathOf a idOf fuel p with
                | PathResult.ok pp => PathResult.ok (nm ++ "<" ++ pp)
                | e => e) = PathResult.ok (pathSpec a (fuel + 1) i)
        rw [hp]
        show _ = PathResult.ok (match a.parentMap i with
          | ParentRef.node p => localName a i ++ "<" ++ pathSpec a fuel p
          | _ => localName a i)
        rw [hp]
        unfold localName
        rw [hp]
        cases hnm : a.names i with
        | some nm => rfl
        | none =>
          cases hk : idxOf? i a.rootChildren with
          | none =>
            have := idxOf?_isSome_of_mem hwi
            rw [hk] at this; exact absurd this (by simp)
          | some k => simp [hk]
      | node p =>
        rw [parentOkB, hp] at hwi
        simp only [Bool.and_eq_true, decide_eq_true_eq] at hwi
        obtain ⟨⟨⟨hpn, hmem⟩, hsome⟩, hhp⟩ := hwi
        have hrec := (ih p hpn (by omega)).1
        show (match a.parentMap i with
          | ParentRef.null => PathResult.errNullParent
          | ParentRef.root =>
            match a.names i with
            | some nm => PathResult.ok nm
            | none =>
              match idxOf? i a.rootChildren with
              | some k => PathResult.ok ("object_" ++ toString k)
              | none => PathResult.errNotInParent
          | ParentRef.node p =>
            let nm? : Option String :=
              match a.names i with
              | some nm => some nm
              | none => (idxOf? i (a.childMap p)).map (fun k => "object_" ++ toString k)
            match nm? with
            | none => PathResult.errNotInParent
            | some nm =>
              match idOf p with
              | none => PathResult.ok nm
              | some _ =>
                match pathOf a idOf fuel p with
                | PathResult.ok pp => PathResult.ok (nm ++ "<" ++ pp)
                | e => e) = PathResult.ok (pathSpec a (fuel + 1) i)
        rw [hp]
        show _ = PathResult.ok (match a.parentMap i with
          | ParentRef.node p => localName a i ++ "<" ++ pathSpec a fuel p
          | _ => localName a i)
        rw [hp]
        unfold localName
        rw [hp]
        cases hov : idOf p with
        | none => rw [hov] at hsome; exact absurd hsome (by simp)
        | some v =>
          cases hnm : a.names i with
          | some nm =>
            dsimp only
            rw [hov, hrec]
          | none =>
            cases hk : idxOf? i (a.childMap p) with
            | none =>
              have := idxOf?_isSome_of_mem hmem
              rw [hk] at this; exact absurd this (by simp)
            | some k =>
              dsimp only
              rw [hk, hov, hrec]
              simp
    refine ⟨hmain, ?_⟩
    rw [hmain]
    intro hc
    exact PathResult.noConfusion hc

/-- C9 witness: the invariant and the conclusion evaluated on the
two-node arena pathArenaW (node 1 is unnamed, so its path is
object_0<A). -/
theorem path_spec_correct_witness :
    (∀ j, j < 2 →
      parentOkB pathArenaW (fun x => some (5 + x)) (fun x => x) 2 j = true) ∧
    (pathOf pathArenaW (fun x => some (5 + x)) 2 1 =
      PathResult.ok (pathSpec pathArenaW 2 1) ∧
     pathOf pathArenaW (fun x => some (5 + x)) 2 1 ≠ PathResult.errNotInParent) :=
  ⟨by decide,
   path_spec_correct pathArenaW (fun x => some (5 + x)) (fun x => x) 2
     (by decide) 2 1 (by decide) (by decide)⟩

/-! ## C8: the traversal visits every node exactly once -/

theorem getD_eq_getElem0 (l : List Nat) (j : Nat) (hj : j < l.length) :
    l.getD j 0 = l[j] := by
  simp [List.getD_eq_getElem?_getD, List.getElem?_eq_getElem hj]

/-- The declared-children lists, stitched over all indices, are exactly the
flat child list. -/
theorem flatMap_childrenDecl (ns : List GltfNode) :
    (List.range ns.length).flatMap (childrenDecl ns) = allChildren ns := by
  induction ns with
  | nil => rfl
  | cons nd ns ih =>
    show (List.range (ns.length + 1)).flatMap (childrenDecl (nd :: ns)) = _
    rw [List.range_succ_eq_map, List.flatMap_cons, List.flatMap_map]
    have h1 : (List.range ns.length).flatMap
        (fun a => childrenDecl (nd :: ns) (a + 1)) = allChildren ns := by
      rw [← ih]
      exact List.flatMap_congr (fun a _ => rfl)
    rw [h1]
    rfl

theorem mem_orphansOf {ns : List GltfNode} {x : Nat} :
    x ∈ orphansOf ns ↔ x < ns.length ∧ x ∉ allChildren ns := by
  simp [orphansOf, List.mem_filter, List.mem_range]

theorem orphansOf_nodup (ns : List GltfNode) : (orphansOf ns).Nodup :=
  (List.nodup_range _).filter _

theorem sortedOrphans_perm (ns : List GltfNode) :
    ((orphansOf ns).insertionSort jsStrLess).Perm (orphansOf ns) :=
  List.perm_insertionSort _ _

theorem sortedOrphans_nodup (ns : List GltfNode) :
    ((orphansOf ns).insertionSort jsStrLess).Nodup :=
  (sortedOrphans_perm ns).nodup_iff.mpr (orphansOf_nodup ns)

theorem mem_sortedOrphans {ns : List GltfNode} {x : Nat} :
    x ∈ (orphansOf ns).insertionSort jsStrLess ↔
      x < ns.length ∧ x ∉ allChildren ns := by
  rw [(sortedOrphans_perm ns).mem_iff, mem_orphansOf]

theorem mirrorIdx_not_mem {rc : List Nat} {x : Nat} (hx : x ∉ rc) :
    mirrorIdx rc x = x := by
  simp [mirrorIdx, idxOf?_eq_none hx]

theorem mirrorIdx_mem {rc : List Nat} {x : Nat} (hx : x ∈ rc) :
    mirrorIdx rc x ∈ rc := by
  cases hk : idxOf? x rc with
  | none =>
    have := idxOf?_isSome_of_mem hx
    rw [hk] at this; exact absurd this (by simp)
  | some j =>
    rcases idxOf?_eq_some hk with ⟨hj, _⟩
    unfold mirrorIdx
    rw [hk]
    exact getD_mem _ _ (by omega)

/-- On a duplicate-free list, taking every element's mirror reverses the
list. -/
theorem map_mirrorIdx_eq_reverse (rc : List Nat) (hnd : rc.Nodup) :
    rc.map (mirrorIdx rc) = rc.reverse := by
  apply List.ext_getElem
  · simp
  · intro k h1 h2
    rw [List.getElem_map, List.getElem_reverse]
    have hk : k < rc.length := by simpa using h1
    have hidx : idxOf? rc[k] rc = some k := by
      rw [← getD_eq_getElem0 rc k hk]
      exact idxOf?_getD rc hnd k hk
    unfold mirrorIdx
    rw [hidx]
    exact getD_eq_getElem0 _ _ (by omega)

theorem attachOrphans_childMap (sm : List (Nat × Nat)) (ji : Nat → Option Nat)
    (ns : List GltfNode) (x : Nat) :
    (attachOrphans (buildNodesPass sm ji ns)).childMap x = childrenDecl ns x := by
  unfold attachOrphans
  rw [foldl_attachOrphan_childMap, buildNodesPass_childMap]

/-- With a duplicate-free flat child list, distinct nodes declare disjoint
child lists. -/
theorem childrenDecl_disjoint {ns : List GltfNode} (hnd : (allChildren ns).Nodup)
    {i1 i2 : Nat} (h1 : i1 < ns.length) (h2 : i2 < ns.length) (hne : i1 ≠ i2) :
    ∀ c ∈ childrenDecl ns i1, c ∉ childrenDecl ns i2 := by
  have hnd' : ((List.range ns.length).flatMap (childrenDecl ns)).Nodup := by
    rw [flatMap_childrenDecl]; exact hnd
  have hpw := (List.nodup_flatMap.mp hnd').2
  have hsym : Symmetric (List.Disjoint on childrenDecl ns) := fun _ _ hab => hab.symm
  intro c hc
  exact hpw.forall hsym (List.mem_range.mpr h1) (List.mem_range.mpr h2) hne hc

/-- The transformed tree's child list of x is the declared child list of
x's mirror among the root children (x's own for non-root nodes). -/
theorem builtArena_childMap (sm : List (Nat × Nat)) (ji : Nat → Option Nat)
    (ns : List GltfNode) (hnd : (allChildren ns).Nodup) (x : Nat) :
    (builtArena sm ji ns).childMap x =
      childrenDecl ns (mirrorIdx ((orphansOf ns).insertionSort jsStrLess) x) := by
  set preA := attachOrphans (buildNodesPass sm ji ns) with hpre
  have hrc : preA.rootChildren = (orphansOf ns).insertionSort jsStrLess :=
    attachOrphans_rootChildren sm ji ns
  have hcm : ∀ y, preA.childMap y = childrenDecl ns y := attachOrphans_childMap sm ji ns
  have hndrc : preA.rootChildren.Nodup := by rw [hrc]; exact sortedOrphans_nodup ns
  have hdisj : ∀ j1, j1 < preA.rootChildren.length →
      ∀ j2, j2 < preA.rootChildren.length → j1 ≠ j2 →
      ∀ c, c ∈ preA.childMap (preA.rootChildren.getD j1 0) →
        c ∉ preA.childMap (preA.rootChildren.getD j2 0) := by
    intro j1 hj1 j2 hj2 hne c hc
    rw [hcm] at hc ⊢
    rw [hrc] at hj1 hj2 hc ⊢
    have hm1 := getD_mem _ _ hj1
    have hm2 := getD_mem _ _ hj2
    rw [mem_sortedOrphans] at hm1 hm2
    have hgne : ((orphansOf ns).insertionSort jsStrLess).getD j1 0 ≠
        ((orphansOf ns).insertionSort jsStrLess).getD j2 0 := by
      intro he
      have e1 := idxOf?_getD _ (sortedOrphans_nodup ns) j1 hj1
      have e2 := idxOf?_getD _ (sortedOrphans_nodup ns) j2 hj2
      rw [he] at e1
      exact hne (Option.some.inj (e1.symm.trans e2))
    exact childrenDecl_disjoint hnd hm1.1 hm2.1 hgne c hc
  have hinv := (reverseLoop_invariant preA hndrc hdisj
    (preA.rootChildren.length / 2) (le_refl _)).2.1 x
  show ((List.range (preA.rootChildren.length / 2)).foldl reverseStep preA).childMap x = _
  rw [hinv]
  cases hk : idxOf? x preA.rootChildren with
  | none =>
    simp only
    have hxm : x ∉ (orphansOf ns).insertionSort jsStrLess := by
      intro hx
      have := idxOf?_isSome_of_mem hx
      rw [← hrc, hk] at this
      exact absurd this (by simp)
    rw [mirrorIdx_not_mem hxm]
    exact hcm x
  | some j =>
    simp only
    rcases idxOf?_eq_some hk with ⟨hjL, hgx⟩
    by_cases hcond : j < preA.rootChildren.length / 2 ∨
        preA.rootChildren.length - 1 - j < preA.rootChildren.length / 2
    · rw [if_pos hcond, hcm]
      unfold mirrorIdx
      rw [← hrc, hk]
    · rw [if_neg hcond, hcm]
      have hj2 : preA.rootChildren.length - 1 - j = j := by omega
      have hmir : mirrorIdx ((orphansOf ns).insertionSort jsStrLess) x = x := by
        unfold mirrorIdx
        rw [← hrc, hk]
        show preA.rootChildren.getD (preA.rootChildren.length - 1 - j) 0 = x
        rw [hj2, hgx]
      rw [hmir]

/-- The traversal only visits nodes below n when started below n with
children below n. -/
theorem dfsOrder_mem_lt (n : Nat) (cm : Nat → List Nat)
    (Hc : ∀ i, i < n → ∀ c ∈ cm i, c < n) :
    ∀ fuel L, (∀ i ∈ L, i < n) → ∀ y ∈ dfsOrder cm fuel L, y < n := by
  intro fuel
  induction fuel with
  | zero => intro L _ y hy; simp [dfsOrder] at hy
  | succ g ih =>
    intro L hL y hy
    simp only [dfsOrder, List.mem_flatMap] at hy
    rcases hy with ⟨i, hiL, hy⟩
    rcases List.mem_cons.mp hy with rfl | hy2
    · exact hL _ hiL
    · exact ih (cm i) (fun c hc => Hc i (hL _ hiL) c hc) y hy2

/-- One unfolding of the traversal, as an occurrence count. -/
theorem count_dfsOrder_succ (cm : Nat → List Nat) (g : Nat) (x : Nat) :
    ∀ L : List Nat, (dfsOrder cm (g + 1) L).count x =
      L.count x + (L.map (fun i => (dfsOrder cm g (cm i)).count x)).sum := by
  intro L
  induction L with
  | nil => rfl
  | cons i L ih =>
    show ((i :: dfsOrder cm g (cm i)) ++ dfsOrder cm (g + 1) L).count x = _
    rw [List.count_append, List.count_cons, ih]
    simp [List.count_cons]
    omega

/-- Above the height of every list entry, more fuel changes nothing. -/
theorem dfsOrder_stab (n : Nat) (cm : Nat → List Nat) (h : Nat → Nat)
    (Hc : ∀ i, i < n → ∀ c ∈ cm i, c < n ∧ h c < h i) :
    ∀ fuel L, (∀ i ∈ L, i < n ∧ h i < fuel) →
      dfsOrder cm (fuel + 1) L = dfsOrder cm fuel L := by
  intro fuel
  induction fuel with
  | zero =>
    intro L hL
    cases L with
    | nil => rfl
    | cons i L => exact absurd (hL i (List.mem_cons_self i L)).2 (Nat.not_lt_zero _)
  | succ g ih =>
    intro L hL
    show L.flatMap (fun i => i :: dfsOrder cm (g + 1) (cm i)) =
      L.flatMap (fun i => i :: dfsOrder cm g (cm i))
    refine List.flatMap_congr (fun i hiL => ?_)
    have hi := hL i hiL
    rw [ih (cm i) (fun c hc => ⟨(Hc i hi.1 c hc).1, by
      have h1 := (Hc i hi.1 c hc).2
      have h2 := hi.2
      omega⟩)]

theorem count_flatMap_eq_sum (cm : Nat → List Nat) (x : Nat) :
    ∀ L : List Nat, (L.flatMap cm).count x =
      (L.map (fun i => (cm i).count x)).sum := by
  intro L
  induction L with
  | nil => rfl
  | cons i L ih => simp [List.flatMap_cons, List.count_append, ih]

theorem sum_map_flatMap_eq (cm : Nat → List Nat) (F : Nat → Nat) :
    ∀ L : List Nat, ((L.flatMap cm).map F).sum =
      (L.map (fun i => ((cm i).map F).sum)).sum := by
  intro L
  induction L with
  | nil => rfl
  | cons i L ih => simp [List.flatMap_cons, ih]

theorem sum_map_add_split (f g : Nat → Nat) :
    ∀ L : List Nat, (L.map (fun i => f i + g i)).sum =
      (L.map f).sum + (L.map g).sum := by
  intro L
  induction L with
  | nil => rfl
  | cons i L ih => simp [ih]; omega

/-- The heart of C8: a forest whose root list and child lists together
cover each of the n nodes exactly once, with heights decreasing toward the
leaves, is traversed with each node visited exactly once: the visit order
is a permutation of all n node indices. -/
theorem dfsOrder_perm_range (n : Nat) (cm : Nat → List Nat) (rts : List Nat)
    (h : Nat → Nat)
    (Hc : ∀ i, i < n → ∀ c ∈ cm i, c < n ∧ h c < h i)
    (Hhb : ∀ i, i < n → ∀ c ∈ cm i, h c < n)
    (Hcover : (rts ++ (List.range n).flatMap cm).Perm (List.range n)) :
    (dfsOrder cm (n + 1) rts).Perm (List.range n) := by
  have hrts_lt : ∀ i ∈ rts, i < n := by
    intro i hi
    exact List.mem_range.mp (Hcover.mem_iff.mp (List.mem_append_left _ hi))
  rw [List.perm_iff_count]
  intro x
  by_cases hx : x < n
  · -- counts on both sides are 1
    have hrange1 : (List.range n).count x = 1 :=
      List.count_eq_one_of_mem (List.nodup_range _) (List.mem_range.mpr hx)
    rw [hrange1]
    -- the cover gives: count in rts + count among all children = 1
    have hcnt := List.perm_iff_count.mp Hcover x
    rw [List.count_append, hrange1] at hcnt
    -- stabilization: one more unit of fuel does not change any subtree list
    have hstab : ∀ i, i < n → dfsOrder cm (n + 1) (cm i) = dfsOrder cm n (cm i) := by
      intro i hi
      exact dfsOrder_stab n cm h Hc n (cm i)
        (fun c hc => ⟨(Hc i hi c hc).1, Hhb i hi c hc⟩)
    -- E1: the sum over all subtrees is fuel-stable at n
    have E1 : ((List.range n).map
          (fun i => (dfsOrder cm (n + 1) (cm i)).count x)).sum =
        ((List.range n).map (fun i => (dfsOrder cm n (cm i)).count x)).sum := by
      congr 1
      refine List.map_congr_left (fun i hi => ?_)
      rw [hstab i (List.mem_range.mp hi)]
    -- E2: expand each subtree count one step
    have E2 : ((List.range n).map
          (fun i => (dfsOrder cm (n + 1) (cm i)).count x)).sum =
        ((List.range n).flatMap cm).count x +
          ((((List.range n).flatMap cm)).map
            (fun c => (dfsOrder cm n (cm c)).count x)).sum := by
      have : ((List.range n).map
          (fun i => (dfsOrder cm (n + 1) (cm i)).count x)).sum =
          ((List.range n).map (fun i => (cm i).count x +
            ((cm i).map (fun c => (dfsOrder cm n (cm c)).count x)).sum)).sum := by
        congr 1
        exact List.map_congr_left (fun i _ => count_dfsOrder_succ cm n x (cm i))
      rw [this, sum_map_add_split, count_flatMap_eq_sum, sum_map_flatMap_eq]
    -- E3: the cover permutation splits the global subtree-count sum
    have E3 : (rts.map (fun c => (dfsOrder cm n (cm c)).count x)).sum +
        ((((List.range n).flatMap cm)).map
          (fun c => (dfsOrder cm n (cm c)).count x)).sum =
        ((List.range n).map (fun c => (dfsOrder cm n (cm c)).count x)).sum := by
      have := (Hcover.map (fun c => (dfsOrder cm n (cm c)).count x)).sum_eq
      rw [List.map_append, List.sum_append] at this
      exact this
    -- E5: the top-level count expands the same way
    have E5 : (dfsOrder cm (n + 1) rts).count x =
        rts.count x + (rts.map (fun i => (dfsOrder cm n (cm i)).count x)).sum :=
      count_dfsOrder_succ cm n x rts
    omega
  · -- x is never visited and is not in range n
    have h1 : (List.range n).count x = 0 :=
      List.count_eq_zero_of_not_mem (by simp [List.mem_range]; omega)
    have h2 : (dfsOrder cm (n + 1) rts).count x = 0 :=
      List.count_eq_zero_of_not_mem (fun hmem => hx
        (dfsOrder_mem_lt n cm (fun i hi c hc => (Hc i hi c hc).1)
          (n + 1) rts hrts_lt x hmem))
    rw [h1, h2]

/-- The transformed tree's root list and child lists cover each of the n
input nodes exactly once: attaching gives the cover, and the reverse
transform only moves whole child lists between root children. -/
theorem cover_sorted (ns : List GltfNode) (hnd : (allChildren ns).Nodup)
    (hrange : ∀ c ∈ allChildren ns, c < ns.length) :
    ((orphansOf ns).insertionSort jsStrLess ++
      (List.range ns.length).flatMap
        (fun x => childrenDecl ns
          (mirrorIdx ((orphansOf ns).insertionSort jsStrLess) x))).Perm
      (List.range ns.length) := by
  have hsortnd := sortedOrphans_nodup ns
  -- split the index range into root children and the rest
  have hsplit := List.filter_append_perm
    (fun x => decide (x ∈ (orphansOf ns).insertionSort jsStrLess))
    (List.range ns.length)
  have hInPerm : ((List.range ns.length).filter
      (fun x => decide (x ∈ (orphansOf ns).insertionSort jsStrLess))).Perm
      ((orphansOf ns).insertionSort jsStrLess) := by
    rw [List.perm_ext_iff_of_nodup ((List.nodup_range _).filter _) hsortnd]
    intro a
    simp only [List.mem_filter, List.mem_range, decide_eq_true_eq]
    constructor
    · exact fun hp => hp.2
    · intro ha
      exact ⟨(mem_sortedOrphans.mp ha).1, ha⟩
  -- the flatMap over mirrored child lists is a permutation of the flat
  -- declared child list
  have hstepA : ((List.range ns.length).flatMap
      (fun x => childrenDecl ns
        (mirrorIdx ((orphansOf ns).insertionSort jsStrLess) x))).Perm
      (allChildren ns) := by
    have p1 := (hsplit.symm).flatMap_right
      (fun x => childrenDecl ns (mirrorIdx ((orphansOf ns).insertionSort jsStrLess) x))
    rw [List.flatMap_append] at p1
    have hOut : ((List.range ns.length).filter
        (fun x => !decide (x ∈ (orphansOf ns).insertionSort jsStrLess))).flatMap
        (fun x => childrenDecl ns (mirrorIdx ((orphansOf ns).insertionSort jsStrLess) x)) =
        ((List.range ns.length).filter
          (fun x => !decide (x ∈ (orphansOf ns).insertionSort jsStrLess))).flatMap
        (childrenDecl ns) := by
      refine List.flatMap_congr (fun x hx => ?_)
      have hxout : x ∉ (orphansOf ns).insertionSort jsStrLess := by
        have := (List.mem_filter.mp hx).2
        simpa using this
      rw [mirrorIdx_not_mem hxout]
    have hIn : (((List.range ns.length).filter
        (fun x => decide (x ∈ (orphansOf ns).insertionSort jsStrLess))).flatMap
        (fun x => childrenDecl ns (mirrorIdx ((orphansOf ns).insertionSort jsStrLess) x))).Perm
        ((((orphansOf ns).insertionSort jsStrLess)).flatMap (childrenDecl ns)) := by
      refine (hInPerm.flatMap_right _).trans ?_
      have hmm : (((orphansOf ns).insertionSort jsStrLess)).flatMap
          (fun x => childrenDecl ns (mirrorIdx ((orphansOf ns).insertionSort jsStrLess) x)) =
          ((((orphansOf ns).insertionSort jsStrLess)).map
            (mirrorIdx ((orphansOf ns).insertionSort jsStrLess))).flatMap
            (childrenDecl ns) := (List.flatMap_map _ _ _).symm
      rw [hmm, map_mirrorIdx_eq_reverse _ hsortnd]
      exact (List.reverse_perm _).flatMap_right _
    have p2 := hIn.append (List.Perm.of_eq hOut)
    have p3 := (hInPerm.symm).flatMap_right (childrenDecl ns)
    have p4 := p3.append_right (((List.range ns.length).filter
      (fun x => !decide (x ∈ (orphansOf ns).insertionSort jsStrLess))).flatMap
      (childrenDecl ns))
    have p5 := (hsplit).flatMap_right (childrenDecl ns)
    rw [List.flatMap_append] at p5
    exact (((p1.trans p2).trans p4).trans p5).trans
      (List.Perm.of_eq (flatMap_childrenDecl ns))
  -- the root children are the orphans, the children cover everyone else
  have hallPerm : (allChildren ns).Perm
      ((List.range ns.length).filter
        (fun x => !decide (x ∉ allChildren ns))) := by
    rw [List.perm_ext_iff_of_nodup hnd ((List.nodup_range _).filter _)]
    intro a
    simp only [List.mem_filter, List.mem_range, Bool.not_eq_true', decide_eq_false_iff_not,
      Decidable.not_not]
    constructor
    · intro ha
      exact ⟨hrange a ha, ha⟩
    · exact fun hp => hp.2
  have hOA : (orphansOf ns ++ (List.range ns.length).filter
      (fun x => !decide (x ∉ allChildren ns))).Perm (List.range ns.length) :=
    List.filter_append_perm (fun x => decide (x ∉ allChildren ns)) (List.range ns.length)
  exact ((List.Perm.append_left _ hstepA).trans
    ((sortedOrphans_perm ns).append hallPerm)).trans hOA

theorem legacyGenerateProject_objects (doc : GltfDoc) (file : String) (ratio : Int)
    (id0 : Nat) :
    (legacyGenerateProject doc file ratio id0).1.objects =
      (sceneResultOf doc file ratio id0).1 := by
  rcases hA : stageImages doc file id0 with ⟨imagesL, id1⟩
  rcases hB : stageTextures doc file id1 with ⟨texturesL, id2⟩
  rcases hC : stageMaterials doc file id2 with ⟨materialsL, id3⟩
  rcases hD : stageMeshes doc file ratio id3 with ⟨meshesL, id4⟩
  rcases hE : genSceneObjects (stageSkins doc file id4).skinsMap
    (stageSkins doc file id4).jointIdxs (initJointsOf (stageSkins doc file id4).entries)
    file doc.nodes (stageSkins doc file id4).idEnd with ⟨objectsL, jointsL, id6⟩
  simp only [legacyGenerateProject, sceneResultOf, skinsPhaseOf, idAfterMeshes,
    hA, hB, hC, hD, hE]

/-- C8: for a well-formed input node list (no node listed as a child twice,
child indices in range, a height certificate excluding cycles), the scene
traversal visits each of the n input nodes exactly once — the visit order
is a permutation of all indices — and the emitted objects mapping holds
exactly n entries keyed by the n consecutive fresh ids. -/
theorem objects_complete (doc : GltfDoc) (file : String) (ratio : Int) (id0 : Nat)
    (ns : List GltfNode) (h : Nat → Nat)
    (hns : doc.nodes = some ns)
    (hnd : (allChildren ns).Nodup)
    (hrange : ∀ c ∈ allChildren ns, c < ns.length)
    (hh : ∀ i, i < ns.length → h i < ns.length ∧
      ∀ c ∈ childrenDecl ns i, h c < h i) :
    (visitOrder (builtArena (skinsPhaseOf doc file ratio id0).skinsMap
        (skinsPhaseOf doc file ratio id0).jointIdxs ns) ns.length).Perm
      (List.range ns.length) ∧
    keysOf (legacyGenerateProject doc file ratio id0).1.objects =
      List.range' (skinsPhaseOf doc file ratio id0).idEnd ns.length := by
  have hperm : ∀ (sm : List (Nat × Nat)) (ji : Nat → Option Nat),
      (visitOrder (builtArena sm ji ns) ns.length).Perm (List.range ns.length) := by
    intro sm ji
    have hcmf : (builtArena sm ji ns).childMap =
        fun x => childrenDecl ns (mirrorIdx ((orphansOf ns).insertionSort jsStrLess) x) :=
      funext (builtArena_childMap sm ji ns hnd)
    show (dfsOrder (builtArena sm ji ns).childMap (ns.length + 1)
      (builtArena sm ji ns).rootChildren).Perm (List.range ns.length)
    rw [hcmf, builtArena_rootChildren]
    have hchild : ∀ i, i < ns.length →
        ∀ c ∈ childrenDecl ns (mirrorIdx ((orphansOf ns).insertionSort jsStrLess) i),
          c < ns.length ∧ c ∉ (orphansOf ns).insertionSort jsStrLess := by
      intro i hi c hc
      by_cases hirt : i ∈ (orphansOf ns).insertionSort jsStrLess
      case pos =>
        have hm : mirrorIdx ((orphansOf ns).insertionSort jsStrLess) i ∈
            (orphansOf ns).insertionSort jsStrLess := mirrorIdx_mem hirt
        have hmn : mirrorIdx ((orphansOf ns).insertionSort jsStrLess) i < ns.length :=
          (mem_sortedOrphans.mp hm).1
        have hcall : c ∈ allChildren ns := by
          rw [← flatMap_childrenDecl]
          exact List.mem_flatMap.mpr ⟨_, List.mem_range.mpr hmn, hc⟩
        refine ⟨hrange c hcall, ?_⟩
        intro hcs
        exact (mem_sortedOrphans.mp hcs).2 hcall
      case neg =>
        rw [mirrorIdx_not_mem hirt] at hc
        have hcall : c ∈ allChildren ns := by
          rw [← flatMap_childrenDecl]
          exact List.mem_flatMap.mpr ⟨_, List.mem_range.mpr hi, hc⟩
        refine ⟨hrange c hcall, ?_⟩
        intro hcs
        exact (mem_sortedOrphans.mp hcs).2 hcall
    apply dfsOrder_perm_range ns.length _ _
      (fun x => if x ∈ (orphansOf ns).insertionSort jsStrLess then ns.length else h x)
    · -- heights decrease along edges
      intro i hi c hc
      rcases hchild i hi c hc with ⟨hcn, hcs⟩
      refine ⟨hcn, ?_⟩
      rw [if_neg hcs]
      by_cases hirt : i ∈ (orphansOf ns).insertionSort jsStrLess
      case pos =>
        rw [if_pos hirt]
        exact (hh c hcn).1
      case neg =>
        rw [if_neg hirt]
        rw [mirrorIdx_not_mem hirt] at hc
        exact (hh i hi).2 c hc
    · -- children's heights are below the fuel bound
      intro i hi c hc
      rcases hchild i hi c hc with ⟨hcn, hcs⟩
      rw [if_neg hcs]
      exact (hh c hcn).1
    · -- each node is covered exactly once
      exact cover_sorted ns hnd hrange
  refine ⟨hperm _ _, ?_⟩
  rw [legacyGenerateProject_objects]
  show keysOf (genSceneObjects (skinsPhaseOf doc file ratio id0).skinsMap
    (skinsPhaseOf doc file ratio id0).jointIdxs
    (initJointsOf (skinsPhaseOf doc file ratio id0).entries)
    file doc.nodes (skinsPhaseOf doc file ratio id0).idEnd).1 = _
  rw [hns]
  rw [(genSceneObjects_spec (skinsPhaseOf doc file ratio id0).skinsMap
    (skinsPhaseOf doc file ratio id0).jointIdxs
    (initJointsOf (skinsPhaseOf doc file ratio id0).entries)
    file (some ns) (skinsPhaseOf doc file ratio id0).idEnd).1]
  congr 1
  show (visitOrder (builtArena (skinsPhaseOf doc file ratio id0).skinsMap
    (skinsPhaseOf doc file ratio id0).jointIdxs ns) ns.length).length = ns.length
  rw [(hperm _ _).length_eq, List.length_range]

/-- C8 witness: the end-to-end example (A with child B, orphan C) gives a
visit order covering indices 0, 1, 2 exactly once and three object entries
with consecutive ids. -/
theorem objects_complete_witness :
    (docC8W.nodes = some nodesC8W ∧ (allChildren nodesC8W).Nodup ∧
      (∀ c ∈ allChildren nodesC8W, c < nodesC8W.length) ∧
      (∀ i, i < nodesC8W.length →
        (if i = 0 then 1 else 0) < nodesC8W.length ∧
        ∀ c ∈ childrenDecl nodesC8W i,
          (if c = 0 then 1 else 0) < (if i = 0 then 1 else 0))) ∧
    ((visitOrder (builtArena (skinsPhaseOf docC8W "m.gltf" 1 5).skinsMap
        (skinsPhaseOf docC8W "m.gltf" 1 5).jointIdxs nodesC8W) nodesC8W.length).Perm
      (List.range nodesC8W.length) ∧
    keysOf (legacyGenerateProject docC8W "m.gltf" 1 5).1.objects =
      List.range' (skinsPhaseOf docC8W "m.gltf" 1 5).idEnd nodesC8W.length) :=
  ⟨⟨rfl, by decide, by decide, by decide⟩,
   objects_complete docC8W "m.gltf" 1 5 nodesC8W (fun i => if i = 0 then 1 else 0)
     rfl (by decide) (by decide) (by decide)⟩

end GltfToWlBin
